import Mathlib

/-!
Verification development for the `wopr-plugin-sandbox` repository.

Shallow embedding conventions:
* JavaScript strings are modelled as Lean `String` (a list of Unicode
  scalar values); `String.trim` of JavaScript is modelled by `jsTrim`
  over the ECMAScript whitespace set.
* `String.prototype.toLowerCase` is modelled by ASCII lowercasing
  (`asciiLower`); the claims proved here only depend on which characters
  belong to the slug alphabet, not on exotic Unicode case mappings.
* JavaScript numbers are modelled as `Rat`.
* Fallible code (`throw`) is modelled with `Except String`.
* `crypto.createHash("sha256")` is modelled by an executable SHA-256
  implementation over `Nat` (FIPS 180-4), operating on the UTF-8 bytes
  of the input string, exactly as Node's `hash.update(string)` does.
-/

namespace Wopr

/-- ECMAScript `WhiteSpace` and `LineTerminator` characters removed by
`String.prototype.trim`. -/
def isJsWhitespace (c : Char) : Bool :=
  c = ' ' || c = '\t' || c = '\n' || c = '\r' ||
  c.toNat = 11 || c.toNat = 12 ||
  c.toNat = 0xA0 ||
  c.toNat = 0x1680 ||
  (0x2000 ≤ c.toNat && c.toNat ≤ 0x200A) ||
  c.toNat = 0x2028 || c.toNat = 0x2029 ||
  c.toNat = 0x202F || c.toNat = 0x205F || c.toNat = 0x3000 ||
  c.toNat = 0xFEFF

/-- `s.trim()` on a list of characters. -/
def jsTrimList (l : List Char) : List Char :=
  ((l.dropWhile isJsWhitespace).reverse.dropWhile isJsWhitespace).reverse

/-- JavaScript `s.trim()`. -/
def jsTrim (s : String) : String :=
  String.mk (jsTrimList s.data)

/-- ASCII model of `String.prototype.toLowerCase`. -/
def asciiLower (c : Char) : Char :=
  if 'A' ≤ c && c ≤ 'Z' then Char.ofNat (c.toNat + 32) else c

/-! ### SHA-256 (FIPS 180-4) over `Nat`, executable -/

/-- Truncate to a 32-bit word. -/
def w32 (x : Nat) : Nat := x % 4294967296

/-- Right rotation of a 32-bit word. -/
def rotr (n x : Nat) : Nat := w32 ((x >>> n) ||| (x <<< (32 - n)))

def shaCh (x y z : Nat) : Nat := (x &&& y) ^^^ ((x ^^^ 4294967295) &&& z)

def shaMaj (x y z : Nat) : Nat := (x &&& y) ^^^ (x &&& z) ^^^ (y &&& z)

def bsig0 (x : Nat) : Nat := rotr 2 x ^^^ rotr 13 x ^^^ rotr 22 x

def bsig1 (x : Nat) : Nat := rotr 6 x ^^^ rotr 11 x ^^^ rotr 25 x

def ssig0 (x : Nat) : Nat := rotr 7 x ^^^ rotr 18 x ^^^ (x >>> 3)

def ssig1 (x : Nat) : Nat := rotr 17 x ^^^ rotr 19 x ^^^ (x >>> 10)

def K256 : List Nat :=
  [1116352408, 1899447441, 3049323471, 3921009573, 961987163, 1508970993,
   2453635748, 2870763221, 3624381080, 310598401, 607225278, 1426881987,
   1925078388, 2162078206, 2614888103, 3248222580, 3835390401, 4022224774,
   264347078, 604807628, 770255983, 1249150122, 1555081692, 1996064986,
   2554220882, 2821834349, 2952996808, 3210313671, 3336571891, 3584528711,
   113926993, 338241895, 666307205, 773529912, 1294757372, 1396182291,
   1695183700, 1986661051, 2177026350, 2456956037, 2730485921, 2820302411,
   3259730800, 3345764771, 3516065817, 3600352804, 4094571909, 275423344,
   430227734, 506948616, 659060556, 883997877, 958139571, 1322822218,
   1537002063, 1747873779, 1955562222, 2024104815, 2227730452, 2361852424,
   2428436474, 2756734187, 3204031479, 3329325298]

/-- The eight 32-bit words of SHA-256 chaining state. -/
structure Hash8 where
  a : Nat
  b : Nat
  c : Nat
  d : Nat
  e : Nat
  f : Nat
  g : Nat
  h : Nat
deriving DecidableEq

def shaInit : Hash8 :=
  ⟨0x6a09e667, 0xbb67ae85, 0x3c6ef372, 0xa54ff53a, 0x510e527f, 0x9b05688c, 0x1f83d9ab, 0x5be0cd19⟩

/-- One SHA-256 compression round for round constant `k` and message word `w`. -/
def shaRound (s : Hash8) (kw : Nat × Nat) : Hash8 :=
  let t1 := w32 (s.h + bsig1 s.e + shaCh s.e s.f s.g + kw.1 + kw.2)
  let t2 := w32 (bsig0 s.a + shaMaj s.a s.b s.c)
  ⟨w32 (t1 + t2), s.a, s.b, s.c, w32 (s.d + t1), s.e, s.f, s.g⟩

def scheduleStep (w : List Nat) : Nat :=
  let t := w.length
  w32 (ssig1 (w.getD (t - 2) 0) + w.getD (t - 7) 0 + ssig0 (w.getD (t - 15) 0) + w.getD (t - 16) 0)

/-- Extend a 16-word block by `n` further schedule words. -/
def extendSchedule : Nat → List Nat → List Nat
  | 0, w => w
  | n + 1, w => extendSchedule n (w ++ [scheduleStep w])

/-- Compress one 16-word message block into the chaining state. -/
def compressBlock (s : Hash8) (block : List Nat) : Hash8 :=
  let w := extendSchedule 48 block
  let t := (K256.zip w).foldl shaRound s
  ⟨w32 (s.a + t.a), w32 (s.b + t.b), w32 (s.c + t.c), w32 (s.d + t.d),
   w32 (s.e + t.e), w32 (s.f + t.f), w32 (s.g + t.g), w32 (s.h + t.h)⟩

/-- Big-endian 8-byte encoding of `n`. -/
def be64 (n : Nat) : List Nat :=
  [(n >>> 56) &&& 255, (n >>> 48) &&& 255, (n >>> 40) &&& 255, (n >>> 32) &&& 255,
   (n >>> 24) &&& 255, (n >>> 16) &&& 255, (n >>> 8) &&& 255, n &&& 255]

/-- SHA-256 padding: append `0x80`, zeros, and the 64-bit bit length. -/
def padMessage (msg : List Nat) : List Nat :=
  let L := msg.length
  let z := (119 - (L % 64)) % 64
  msg ++ [0x80] ++ List.replicate z 0 ++ be64 (8 * L)

/-- Combine bytes into big-endian 32-bit words (4 bytes each). -/
def bytesToWords : List Nat → List Nat
  | b0 :: b1 :: b2 :: b3 :: rest => (((b0 * 256 + b1) * 256 + b2) * 256 + b3) :: bytesToWords rest
  | _ => []

/-- Fold the compression function over successive 16-word blocks.
Structural recursion (16 cons cells per step) so that the kernel can
evaluate it; padded messages always split evenly into such blocks. -/
def foldBlocks (s : Hash8) : List Nat → Hash8
  | w0 :: w1 :: w2 :: w3 :: w4 :: w5 :: w6 :: w7 ::
    w8 :: w9 :: w10 :: w11 :: w12 :: w13 :: w14 :: w15 :: rest =>
      foldBlocks (compressBlock s [w0, w1, w2, w3, w4, w5, w6, w7,
                                   w8, w9, w10, w11, w12, w13, w14, w15]) rest
  | _ => s

/-- The SHA-256 chaining state after absorbing all blocks of `msg` (a byte list). -/
def sha256core (msg : List Nat) : Hash8 :=
  foldBlocks shaInit (bytesToWords (padMessage msg))

def hexChar (n : Nat) : Char :=
  if n < 10 then Char.ofNat (48 + n) else if n < 16 then Char.ofNat (87 + n) else Char.ofNat 48

/-- Lowercase hexadecimal rendering of a 32-bit word (8 digits). -/
def wordHex (w : Nat) : List Char :=
  [hexChar ((w >>> 28) &&& 15), hexChar ((w >>> 24) &&& 15), hexChar ((w >>> 20) &&& 15),
   hexChar ((w >>> 16) &&& 15), hexChar ((w >>> 12) &&& 15), hexChar ((w >>> 8) &&& 15),
   hexChar ((w >>> 4) &&& 15), hexChar (w &&& 15)]

/-- `hash.digest("hex")`: the 64 lowercase hex characters of the SHA-256 digest. -/
def sha256hexChars (msg : List Nat) : List Char :=
  let s := sha256core msg
  wordHex s.a ++ wordHex s.b ++ wordHex s.c ++ wordHex s.d ++
  wordHex s.e ++ wordHex s.f ++ wordHex s.g ++ wordHex s.h

/-- UTF-8 encoding of one Unicode scalar value. -/
def utf8Char (c : Char) : List Nat :=
  let n := c.toNat
  if n < 0x80 then [n]
  else if n < 0x800 then
    [0xC0 ||| (n >>> 6), 0x80 ||| (n &&& 0x3F)]
  else if n < 0x10000 then
    [0xE0 ||| (n >>> 12), 0x80 ||| ((n >>> 6) &&& 0x3F), 0x80 ||| (n &&& 0x3F)]
  else
    [0xF0 ||| (n >>> 18), 0x80 ||| ((n >>> 12) &&& 0x3F),
     0x80 ||| ((n >>> 6) &&& 0x3F), 0x80 ||| (n &&& 0x3F)]

/-- UTF-8 bytes of a string, as fed to `hash.update`. -/
def utf8Encode (s : String) : List Nat :=
  s.data.flatMap utf8Char

/-! ### `src/shell-escape.ts` -/

/-- The apostrophe character (U+0027). -/
def quoteC : Char := Char.ofNat 39

/-- The backtick character (U+0060). -/
def backtickC : Char := Char.ofNat 96

/-- `SHELL_METACHAR_PATTERN`: the character class of `/[;&|`$<>\\]/`. -/
def SHELL_METACHARS : List Char :=
  [';', '&', '|', backtickC, '$', '<', '>', '\\']

/-- The error message thrown for a shell metacharacter `c`. -/
def metacharMessage (c : Char) : String :=
  "Command contains shell metacharacter " ++ String.mk [quoteC, c, quoteC] ++
    " — use execInContainerRaw() for complex commands or shellEscapeArg() for dynamic values"

/-- `validateCommand` from `src/shell-escape.ts`: reject null bytes, empty
(after trim) commands and shell metacharacters; return the trimmed command. -/
def validateCommand (command : String) : Except String String :=
  if command.data.contains (Char.ofNat 0) then
    .error "Command contains null bytes"
  else
    let trimmed := jsTrim command
    if trimmed = "" then
      .error "Command is empty"
    else
      match trimmed.data.find? (fun c => SHELL_METACHARS.contains c) with
      | some c => .error (metacharMessage c)
      | none => .ok trimmed

/-! ### `src/shared.ts` -/

/-- Membership in the slug character class `[a-z0-9._-]`. -/
def slugAllowed (c : Char) : Bool :=
  ('a' ≤ c && c ≤ 'z') || ('0' ≤ c && c ≤ '9') || c = '.' || c = '_' || c = '-'

mutual

/-- `.replace(/[^a-z0-9._-]+/g, "-")`: each maximal run of characters outside
the class becomes a single hyphen. -/
def replaceDisallowedRuns : List Char → List Char
  | [] => []
  | c :: rest =>
    if slugAllowed c then c :: replaceDisallowedRuns rest
    else '-' :: skipDisallowedRun rest

/-- Consume the remainder of a disallowed run (its hyphen is already emitted). -/
def skipDisallowedRun : List Char → List Char
  | [] => []
  | c :: rest =>
    if slugAllowed c then c :: replaceDisallowedRuns rest
    else skipDisallowedRun rest

end

/-- `.replace(/^-+|-+$/g, "")`: strip leading and trailing hyphens. -/
def stripHyphens (l : List Char) : List Char :=
  ((l.dropWhile (fun c => c = '-')).reverse.dropWhile (fun c => c = '-')).reverse

/-- `slugifySessionKey` from `src/shared.ts`. -/
def slugifySessionKey (value : String) : String :=
  let trimmed := if jsTrim value = "" then "session" else jsTrim value
  let hash := (sha256hexChars (utf8Encode trimmed)).take 8
  let safe := stripHyphens (replaceDisallowedRuns (trimmed.data.map asciiLower))
  let base := if safe.take 32 = [] then "session".data else safe.take 32
  String.mk (base ++ '-' :: hash)

/-- `resolveSandboxScopeKey` from `src/shared.ts`. -/
def resolveSandboxScopeKey (scope : String) (sessionKey : String) : String :=
  let trimmed := if jsTrim sessionKey = "" then "main" else jsTrim sessionKey
  if scope = "shared" then "shared" else trimmed

/-! ### `src/tool-policy.ts` -/

/-- A tool policy: optional allow and deny pattern lists. A non-array value in
the source is modelled as `none`. -/
structure SandboxToolPolicy where
  allow : Option (List String) := none
  deny : Option (List String) := none

/-- `CompiledPattern` from `src/tool-policy.ts`. The `regex` case stores the
normalized pattern characters; its regex `^escaped(* ↦ .*)$` matches exactly
the glob semantics implemented by `globMatch`. -/
inductive CompiledPattern where
  | all : CompiledPattern
  | exact (value : String) : CompiledPattern
  | regex (value : List Char) : CompiledPattern
deriving DecidableEq

/-- Anchored glob matching: every non-`*` pattern character is literal, `*`
matches any (possibly empty) character sequence. -/
def globMatch : List Char → List Char → Bool
  | [], [] => true
  | [], _ :: _ => false
  | '*' :: ps, [] => globMatch ps []
  | '*' :: ps, c :: is => globMatch ps (c :: is) || globMatch ('*' :: ps) is
  | p :: ps, [] => if p = '*' then globMatch ps [] else false
  | p :: ps, c :: is => p = c && globMatch ps is
termination_by pat inp => (pat.length, inp.length)

/-- Normalization applied to both patterns and tool names: trim + lowercase. -/
def normalizeTool (s : String) : String :=
  String.mk ((jsTrimList s.data).map asciiLower)

/-- `compilePattern` from `src/tool-policy.ts`. -/
def compilePattern (pattern : String) : CompiledPattern :=
  let normalized := normalizeTool pattern
  if normalized = "" then .exact ""
  else if normalized = "*" then .all
  else if !normalized.data.contains '*' then .exact normalized
  else .regex normalized.data

/-- `compilePatterns`: blank patterns are dropped; a non-array input is `none`
and compiles to the empty list. -/
def compilePatterns (patterns : Option (List String)) : List CompiledPattern :=
  match patterns with
  | none => []
  | some ps => (ps.map compilePattern).filter fun p =>
      match p with
      | .exact v => v ≠ ""
      | _ => true

/-- `matchesAny` from `src/tool-policy.ts`. -/
def matchesAny (name : String) (patterns : List CompiledPattern) : Bool :=
  patterns.any fun p =>
    match p with
    | .all => true
    | .exact v => name = v
    | .regex g => globMatch g name.data

/-- `isToolAllowed` from `src/tool-policy.ts`: deny wins, empty allow list
means allow-all-not-denied. -/
def isToolAllowed (policy : SandboxToolPolicy) (name : String) : Bool :=
  let normalized := normalizeTool name
  let deny := compilePatterns policy.deny
  if matchesAny normalized deny then false
  else
    let allow := compilePatterns policy.allow
    if allow.length = 0 then true
    else matchesAny normalized allow

/-- `filterToolsByPolicy` from `src/tool-policy.ts`. -/
def filterToolsByPolicy (tools : List String) (policy : SandboxToolPolicy) :
    List String × List String :=
  (tools.filter (fun t => isToolAllowed policy t),
   tools.filter (fun t => !isToolAllowed policy t))

/-! ### JavaScript object helpers

JavaScript plain objects (used for `env` and `ulimits` maps) are modelled as
association lists with distinct keys; `\x7b...a, ...b\x7d` spread is
`objMerge`. -/

/-- Key lookup in an object modelled as an association list. -/
def objLookup {α : Type} (m : List (String × α)) (k : String) : Option α :=
  (m.find? (fun p => p.1 = k)).map (fun p => p.2)

/-- JavaScript object spread `\x7b...a, ...b\x7d`: `a`'s keys in order with
`b`'s values where both define a key, then `b`'s new keys in order. -/
def objMerge {α : Type} (a b : List (String × α)) : List (String × α) :=
  a.map (fun p => (p.1, ((b.find? (fun q => q.1 = p.1)).map (fun q => q.2)).getD p.2)) ++
  b.filter (fun q => (a.find? (fun p => p.1 = q.1)).isNone)

/-! ### `src/constants.ts` -/

def DEFAULT_SANDBOX_IMAGE : String := "wopr-sandbox:bookworm-slim"

def DEFAULT_SANDBOX_CONTAINER_PREFIX : String := "wopr-sbx-"

def DEFAULT_SANDBOX_WORKDIR : String := "/workspace"

def DEFAULT_SANDBOX_IDLE_HOURS : Rat := 24

def DEFAULT_SANDBOX_MAX_AGE_DAYS : Rat := 7

/-! ### `src/types.ts` / `src/types.docker.ts` -/

/-- A JavaScript `string | number` (Docker size literals). -/
inductive StrOrNum where
  | str (s : String)
  | num (q : Rat)
deriving DecidableEq

/-- A ulimit entry value: `number | string | \x7bsoft?, hard?\x7d`. -/
inductive UlimitValue where
  | prim (v : StrOrNum)
  | softHard (soft hard : Option Rat)
deriving DecidableEq

/-- The post-merge container blueprint `SandboxDockerConfig`. -/
structure SandboxDockerConfig where
  image : String
  containerPrefix : String
  workdir : String
  readOnlyRoot : Bool
  tmpfs : List String
  network : String
  user : Option String := none
  capDrop : List String
  env : List (String × String)
  setupCommand : Option String := none
  pidsLimit : Option Rat := none
  memory : Option StrOrNum := none
  memorySwap : Option StrOrNum := none
  cpus : Option Rat := none
  ulimits : Option (List (String × UlimitValue)) := none
  seccompProfile : Option String := none
  apparmorProfile : Option String := none
  dns : Option (List String) := none
  extraHosts : Option (List String) := none
  binds : Option (List String) := none
deriving DecidableEq

/-- `Partial<SandboxDockerConfig>`: every field optional. -/
structure SandboxDockerConfigPartial where
  image : Option String := none
  containerPrefix : Option String := none
  workdir : Option String := none
  readOnlyRoot : Option Bool := none
  tmpfs : Option (List String) := none
  network : Option String := none
  user : Option String := none
  capDrop : Option (List String) := none
  env : Option (List (String × String)) := none
  setupCommand : Option String := none
  pidsLimit : Option Rat := none
  memory : Option StrOrNum := none
  memorySwap : Option StrOrNum := none
  cpus : Option Rat := none
  ulimits : Option (List (String × UlimitValue)) := none
  seccompProfile : Option String := none
  apparmorProfile : Option String := none
  dns : Option (List String) := none
  extraHosts : Option (List String) := none
  binds : Option (List String) := none
deriving DecidableEq

structure SandboxPruneConfig where
  idleHours : Rat
  maxAgeDays : Rat
deriving DecidableEq

/-- The resolved envelope `SandboxConfig` (modes and scopes kept as the
source's literal strings). -/
structure SandboxConfig where
  mode : String
  scope : String
  workspaceAccess : String
  workspaceRoot : String
  docker : SandboxDockerConfig
  tools : SandboxToolPolicy
  prune : SandboxPruneConfig

/-! ### `src/config.ts` -/

/-- `resolveSandboxDockerConfig` from `src/config.ts`; `a?.f` is modelled as
`a.bind f` on the optional partials. -/
def resolveSandboxDockerConfig (globalDocker sessionDocker : Option SandboxDockerConfigPartial) :
    SandboxDockerConfig :=
  let global := globalDocker
  let session := sessionDocker
  let env :=
    match session.bind (fun s => s.env) with
    | some se => objMerge ((global.bind (fun g => g.env)).getD [("LANG", "C.UTF-8")]) se
    | none => (global.bind (fun g => g.env)).getD [("LANG", "C.UTF-8")]
  let ulimits :=
    match session.bind (fun s => s.ulimits) with
    | some su => some (objMerge ((global.bind (fun g => g.ulimits)).getD []) su)
    | none => global.bind (fun g => g.ulimits)
  let binds := (global.bind (fun g => g.binds)).getD [] ++ (session.bind (fun s => s.binds)).getD []
  { image := ((session.bind (fun s => s.image)).or (global.bind (fun g => g.image))).getD DEFAULT_SANDBOX_IMAGE
    containerPrefix := ((session.bind (fun s => s.containerPrefix)).or
      (global.bind (fun g => g.containerPrefix))).getD DEFAULT_SANDBOX_CONTAINER_PREFIX
    workdir := ((session.bind (fun s => s.workdir)).or (global.bind (fun g => g.workdir))).getD
      DEFAULT_SANDBOX_WORKDIR
    readOnlyRoot := ((session.bind (fun s => s.readOnlyRoot)).or (global.bind (fun g => g.readOnlyRoot))).getD true
    tmpfs := ((session.bind (fun s => s.tmpfs)).or (global.bind (fun g => g.tmpfs))).getD
      ["/tmp", "/var/tmp", "/run"]
    network := ((session.bind (fun s => s.network)).or (global.bind (fun g => g.network))).getD "none"
    user := (session.bind (fun s => s.user)).or (global.bind (fun g => g.user))
    capDrop := ((session.bind (fun s => s.capDrop)).or (global.bind (fun g => g.capDrop))).getD ["ALL"]
    env := env
    setupCommand := (session.bind (fun s => s.setupCommand)).or (global.bind (fun g => g.setupCommand))
    pidsLimit := ((session.bind (fun s => s.pidsLimit)).or (global.bind (fun g => g.pidsLimit))).getD 100
    memory := ((session.bind (fun s => s.memory)).or (global.bind (fun g => g.memory))).getD (.str "512m")
    memorySwap := ((session.bind (fun s => s.memorySwap)).or
      (global.bind (fun g => g.memorySwap))).getD (.str "512m")
    cpus := ((session.bind (fun s => s.cpus)).or (global.bind (fun g => g.cpus))).getD (1 / 2 : Rat)
    ulimits := ulimits
    seccompProfile := (session.bind (fun s => s.seccompProfile)).or (global.bind (fun g => g.seccompProfile))
    apparmorProfile := (session.bind (fun s => s.apparmorProfile)).or (global.bind (fun g => g.apparmorProfile))
    dns := (session.bind (fun s => s.dns)).or (global.bind (fun g => g.dns))
    extraHosts := (session.bind (fun s => s.extraHosts)).or (global.bind (fun g => g.extraHosts))
    binds := if binds.length ≠ 0 then some binds else none }

/-! ### `src/sandbox-schema.ts` and `src/sandbox-repository.ts` -/

/-- `SandboxRegistryRecord` from `src/sandbox-schema.ts`. -/
structure SandboxRegistryRecord where
  id : String
  containerName : String
  sessionKey : String
  createdAtMs : Rat
  lastUsedAtMs : Rat
  image : String
  configHash : Option String := none
deriving DecidableEq

/-- The `sandbox_registry` table, primary key `id`. -/
abbrev Registry := List SandboxRegistryRecord

/-- `repo.findById`. -/
def repoFindById (reg : Registry) (id : String) : Option SandboxRegistryRecord :=
  reg.find? (fun r => r.id = id)

/-- `repo.update id record`: replace the record stored under `id`. -/
def repoUpdate (reg : Registry) (id : String) (r : SandboxRegistryRecord) : Registry :=
  reg.map (fun x => if x.id = id then r else x)

/-- `repo.insert`. -/
def repoInsert (reg : Registry) (r : SandboxRegistryRecord) : Registry :=
  reg ++ [r]

/-- `repo.delete id`. -/
def repoDelete (reg : Registry) (id : String) : Registry :=
  reg.filter (fun x => x.id ≠ id)

/-- The argument shape of `updateRegistrySQL`. -/
structure RegistryUpsert where
  containerName : String
  sessionKey : String
  createdAtMs : Rat
  lastUsedAtMs : Rat
  image : String
  configHash : Option String := none

/-- `updateRegistrySQL` from `src/sandbox-repository.ts`. In this sequential
model the insert duplicate-key race branch is unreachable, so an insert after
`findById = none` always succeeds. -/
def updateRegistrySQL (reg : Registry) (entry : RegistryUpsert) : Registry :=
  let existing := repoFindById reg entry.containerName
  let record : SandboxRegistryRecord :=
    { id := entry.containerName
      containerName := entry.containerName
      sessionKey := entry.sessionKey
      createdAtMs := (existing.map (fun e => e.createdAtMs)).getD entry.createdAtMs
      lastUsedAtMs := entry.lastUsedAtMs
      image := (existing.map (fun e => e.image)).getD entry.image
      configHash := entry.configHash.or (existing.bind (fun e => e.configHash)) }
  match existing with
  | some _ => repoUpdate reg entry.containerName record
  | none => repoInsert reg record

/-- `removeRegistryEntrySQL`. -/
def removeRegistryEntrySQL (reg : Registry) (containerName : String) : Registry :=
  repoDelete reg containerName

/-! ### Docker CLI environment

`execDocker` spawns the Docker CLI; its observable behaviour is a response
(stdout, stderr, exit code) per argument vector, modelled by `DockerWorld`.
`now` models `Date.now()`. -/

structure DockerResult where
  stdout : String
  stderr : String
  code : Nat
deriving DecidableEq

structure DockerWorld where
  now : Rat
  respond : List String → DockerResult

/-- `String.intercalate " "` over an argument vector (for error messages). -/
def joinSpace (args : List String) : String :=
  String.intercalate " " args

/-- `execDocker(args, opts)` from `src/docker.ts`, as a pure function of the
world: rejects (returns `.error`) when the exit code is non-zero and failure
is not allowed. -/
def execDockerR (w : DockerWorld) (args : List String) (allowFailure : Bool) :
    Except String DockerResult :=
  let r := w.respond args
  if r.code ≠ 0 && !allowFailure then
    .error (if jsTrim r.stderr = "" then "docker " ++ joinSpace args ++ " failed" else jsTrim r.stderr)
  else
    .ok r

/-! ### `src/prune.ts` -/

/-- The eviction condition of `pruneSandboxContainers` for one entry. -/
def shouldEvict (now : Rat) (prune : SandboxPruneConfig) (e : SandboxRegistryRecord) : Bool :=
  let idleMs := now - e.lastUsedAtMs
  let ageMs := now - e.createdAtMs
  (prune.idleHours > 0 && idleMs > prune.idleHours * 60 * 60 * 1000) ||
  (prune.maxAgeDays > 0 && ageMs > prune.maxAgeDays * 24 * 60 * 60 * 1000)

/-- The entry loop of `pruneSandboxContainers`: iterate over the snapshot of
registry entries; for each entry due for eviction issue `docker rm -f`
(failure allowed, result unused) and remove the registry entry. Returns the
final registry and the trace of Docker commands issued. -/
def pruneLoop (w : DockerWorld) (prune : SandboxPruneConfig) :
    List SandboxRegistryRecord → Registry → Registry × List (List String)
  | [], reg => (reg, [])
  | e :: rest, reg =>
    if shouldEvict w.now prune e then
      let _ := execDockerR w ["rm", "-f", e.containerName] true
      let reg' := removeRegistryEntrySQL reg e.containerName
      let (regF, tr) := pruneLoop w prune rest reg'
      (regF, ["rm", "-f", e.containerName] :: tr)
    else
      pruneLoop w prune rest reg

/-- `pruneSandboxContainers` from `src/prune.ts`. -/
def pruneSandboxContainers (w : DockerWorld) (cfg : SandboxConfig) (reg : Registry) :
    Registry × List (List String) :=
  if cfg.prune.idleHours = 0 && cfg.prune.maxAgeDays = 0 then (reg, [])
  else pruneLoop w cfg.prune reg reg

/-- `maybePruneSandboxes` from `src/prune.ts`, with the process-wide
`lastPruneAtMs` passed and returned explicitly. `passError` models an
exception thrown by the underlying pass (for example a storage failure while
listing entries); the source catches it, logs a warning and swallows it. The
returned `Bool` records whether an underlying prune pass was performed.
Note the debounce timestamp is assigned before the guarded pass runs. -/
def maybePruneSandboxes (lastPruneAtMs : Rat) (w : DockerWorld) (cfg : SandboxConfig)
    (reg : Registry) (passError : Option String) :
    Rat × Registry × List (List String) × Bool :=
  if w.now - lastPruneAtMs < 5 * 60 * 1000 then
    (lastPruneAtMs, reg, [], false)
  else
    let lastPruneAtMs' := w.now
    match passError with
    | some _ => (lastPruneAtMs', reg, [], true)
    | none =>
      let (reg', tr) := pruneSandboxContainers w cfg reg
      (lastPruneAtMs', reg', tr, true)

/-! ### `src/config-hash.ts` (modelled from the spec)

The file `src/config-hash.ts` is not among the sources; only its tests and
callers are. The JSON-like value universe and the canonicalization below are
modelled from spec §4.F. -/

/-- A JSON-like value as handled by the hash canonicalizer; `undef` is
JavaScript `undefined`. -/
inductive JVal where
  | undef
  | str (s : String)
  | num (q : Rat)
  | jbool (b : Bool)
  | arr (xs : List JVal)
  | obj (fs : List (String × JVal))

def isUndef : JVal → Bool
  | .undef => true
  | _ => false

/-- Primitive (string / number / boolean) values; only arrays whose elements
are all primitive are sorted. -/
def isPrimB : JVal → Bool
  | .str _ => true
  | .num _ => true
  | .jbool _ => true
  | _ => false

def primRank : JVal → Nat
  | .str _ => 0
  | .num _ => 1
  | .jbool _ => 2
  | .undef => 3
  | .arr _ => 4
  | .obj _ => 5

/-- Ascending order on primitive values: lexicographic for strings, numeric
for numbers, `false < true` for booleans, mixed kinds by kind rank. -/
def primLE (a b : JVal) : Bool :=
  match a, b with
  | .str s, .str t => decide (s ≤ t)
  | .num p, .num q => decide (p ≤ q)
  | .jbool x, .jbool y => !x || y
  | a, b => decide (primRank a ≤ primRank b)

def keyLE (a b : String × JVal) : Bool :=
  decide (a.1 ≤ b.1)

mutual

/-- Modelled from the spec: the canonicalization performed by
`computeSandboxConfigHash` (§4.F) — drop undefined-valued keys, sort object
keys lexicographically, sort arrays of primitives ascending, keep the order
of other arrays, recurse into elements. -/
def canon : JVal → JVal
  | .undef => .undef
  | .str s => .str s
  | .num q => .num q
  | .jbool b => .jbool b
  | .arr xs =>
    let ys := canonArr xs
    if ys.all isPrimB then .arr (ys.mergeSort primLE) else .arr ys
  | .obj fs => .obj ((canonFields fs).mergeSort keyLE)

def canonArr : List JVal → List JVal
  | [] => []
  | x :: xs => canon x :: canonArr xs

/-- Canonicalize a field list: drop `undefined`-valued keys, canonicalize the
remaining values. -/
def canonFields : List (String × JVal) → List (String × JVal)
  | [] => []
  | (k, v) :: fs => if isUndef v then canonFields fs else (k, canon v) :: canonFields fs

end

mutual

/-- Modelled from the spec: a canonical, deterministic serialization of the
canonicalized value (the exact byte format is not observable through the
claims, which only compare hashes of canonical forms). -/
def serializeJ : JVal → String
  | .undef => "undefined"
  | .str s => "\"" ++ s ++ "\""
  | .num q => toString q.num ++ "/" ++ toString q.den
  | .jbool b => if b then "true" else "false"
  | .arr xs => "[" ++ serializeList xs ++ "]"
  | .obj fs => "\x7b" ++ serializeFields fs ++ "\x7d"

def serializeList : List JVal → String
  | [] => ""
  | [x] => serializeJ x
  | x :: y :: xs => serializeJ x ++ "," ++ serializeList (y :: xs)

def serializeFields : List (String × JVal) → String
  | [] => ""
  | [(k, v)] => "\"" ++ k ++ "\":" ++ serializeJ v
  | (k, v) :: f :: fs => "\"" ++ k ++ "\":" ++ serializeJ v ++ "," ++ serializeFields (f :: fs)

end

/-- Modelled from the spec: `computeSandboxConfigHash` from
`src/config-hash.ts` (absent from the sources; only its tests are present).
Serializes the input canonically (§4.F) and returns the 64-char lowercase hex
SHA-256. -/
def computeSandboxConfigHash (input : JVal) : String :=
  String.mk (sha256hexChars (utf8Encode (serializeJ (canon input))))

mutual

/-- Well-formedness of a JSON-like value: every object has pairwise-distinct
keys (JavaScript objects cannot carry duplicate keys). -/
def wfJ : JVal → Bool
  | .undef => true
  | .str _ => true
  | .num _ => true
  | .jbool _ => true
  | .arr xs => wfArr xs
  | .obj fs => ((fs.map (fun p => p.1)).Nodup : Bool) && wfFields fs

def wfArr : List JVal → Bool
  | [] => true
  | x :: xs => wfJ x && wfArr xs

def wfFields : List (String × JVal) → Bool
  | [] => true
  | (_, v) :: fs => wfJ v && wfFields fs

end

/-- Fields that survive the undefined-drop. -/
def dropUndef (fs : List (String × JVal)) : List (String × JVal) :=
  fs.filter (fun p => !isUndef p.2)

mutual

/-- The spec's `normalize` relation: `JEquiv a b` holds when `b` is obtained
from `a` by reordering object keys, permuting the elements of arrays of
primitives, and adding or removing undefined-valued object fields, at any
depth. -/
inductive JEquiv : JVal → JVal → Prop where
  | refl (v : JVal) : JEquiv v v
  | arr {xs ys : List JVal} : JEquivList xs ys → JEquiv (.arr xs) (.arr ys)
  | arrPerm {xs ys : List JVal} : xs.all isPrimB = true → xs.Perm ys →
      JEquiv (.arr xs) (.arr ys)
  | obj {fs gs : List (String × JVal)} (fs' : List (String × JVal)) :
      JEquivFields (dropUndef fs) fs' → fs'.Perm (dropUndef gs) →
      JEquiv (.obj fs) (.obj gs)

/-- Pointwise `JEquiv` on element lists. -/
inductive JEquivList : List JVal → List JVal → Prop where
  | nil : JEquivList [] []
  | cons {x y : JVal} {xs ys : List JVal} : JEquiv x y → JEquivList xs ys →
      JEquivList (x :: xs) (y :: ys)

/-- Pointwise key-preserving `JEquiv` on field lists. -/
inductive JEquivFields : List (String × JVal) → List (String × JVal) → Prop where
  | nil : JEquivFields [] []
  | cons (k : String) {v w : JVal} {ps qs : List (String × JVal)} :
      JEquiv v w → JEquivFields ps qs → JEquivFields ((k, v) :: ps) ((k, w) :: qs)

end

/-- Encoding of a `string | number` into the hash input. -/
def strOrNumJ : StrOrNum → JVal
  | .str s => .str s
  | .num q => .num q

/-- `undefined` for `none`, encoded value for `some`. -/
def optJ {α : Type} (f : α → JVal) : Option α → JVal
  | none => .undef
  | some x => f x

def strListJ (l : List String) : JVal :=
  .arr (l.map (fun s => .str s))

def strMapJ (m : List (String × String)) : JVal :=
  .obj (m.map (fun p => (p.1, .str p.2)))

def ulimitValueJ : UlimitValue → JVal
  | .prim v => strOrNumJ v
  | .softHard s h => .obj [("soft", optJ (fun q => .num q) s), ("hard", optJ (fun q => .num q) h)]

/-- The JSON shape of a `SandboxDockerConfig` as passed to the hash. -/
def dockerConfigJ (c : SandboxDockerConfig) : JVal :=
  .obj [("image", .str c.image),
        ("containerPrefix", .str c.containerPrefix),
        ("workdir", .str c.workdir),
        ("readOnlyRoot", .jbool c.readOnlyRoot),
        ("tmpfs", strListJ c.tmpfs),
        ("network", .str c.network),
        ("user", optJ (fun s => .str s) c.user),
        ("capDrop", strListJ c.capDrop),
        ("env", strMapJ c.env),
        ("setupCommand", optJ (fun s => .str s) c.setupCommand),
        ("pidsLimit", optJ (fun q => .num q) c.pidsLimit),
        ("memory", optJ strOrNumJ c.memory),
        ("memorySwap", optJ strOrNumJ c.memorySwap),
        ("cpus", optJ (fun q => .num q) c.cpus),
        ("ulimits", optJ (fun m => .obj (m.map (fun p => (p.1, ulimitValueJ p.2)))) c.ulimits),
        ("seccompProfile", optJ (fun s => .str s) c.seccompProfile),
        ("apparmorProfile", optJ (fun s => .str s) c.apparmorProfile),
        ("dns", optJ strListJ c.dns),
        ("extraHosts", optJ strListJ c.extraHosts),
        ("binds", optJ strListJ c.binds)]

/-- The hash input `\x7bdocker, workspaceAccess, workspaceDir\x7d` of
`ensureSandboxContainer`. -/
def hashInputJ (docker : SandboxDockerConfig) (workspaceAccess workspaceDir : String) : JVal :=
  .obj [("docker", dockerConfigJ docker),
        ("workspaceAccess", .str workspaceAccess),
        ("workspaceDir", .str workspaceDir)]

/-! ### `src/docker.ts` -/

/-- The least power of ten clearing the denominator, if one exists below 64
(always the case for values that arise from JavaScript floats). -/
def decExponent (q : Rat) : Option Nat :=
  (List.range 64).find? (fun k => (q * ((10 : Rat) ^ k)).den = 1)

/-- JavaScript `String(n)` for the finite decimal rationals produced by JS
numbers: integer part, then a fraction part without trailing zeros. -/
def jsNumToString (q : Rat) : String :=
  match decExponent q with
  | some 0 => toString q.num
  | some k =>
    let scaled := (q * ((10 : Rat) ^ k)).num
    let sign := if scaled < 0 then "-" else ""
    let ds := (toString scaled.natAbs).data
    let ds := List.replicate (k + 1 - ds.length) '0' ++ ds
    sign ++ String.mk (ds.take (ds.length - k)) ++ "." ++ String.mk (ds.drop (ds.length - k))
  | none => toString q.num ++ "/" ++ toString q.den

/-- `normalizeDockerLimit` from `src/docker.ts` (a `Rat` is always finite). -/
def normalizeDockerLimit : Option StrOrNum → Option String
  | none => none
  | some (.num q) => some (jsNumToString q)
  | some (.str s) => if jsTrim s = "" then none else some (jsTrim s)

/-- `formatUlimitValue` from `src/docker.ts`. -/
def formatUlimitValue (name : String) (value : UlimitValue) : Option String :=
  if jsTrim name = "" then none
  else
    match value with
    | .prim v =>
      let raw := jsTrim (match v with | .str s => s | .num q => jsNumToString q)
      if raw = "" then none else some (name ++ "=" ++ raw)
    | .softHard s h =>
      let soft := s.map (fun x => max 0 x)
      let hard := h.map (fun x => max 0 x)
      match soft, hard with
      | none, none => none
      | none, some hd => some (name ++ "=" ++ jsNumToString hd)
      | some sf, none => some (name ++ "=" ++ jsNumToString sf)
      | some sf, some hd => some (name ++ "=" ++ jsNumToString sf ++ ":" ++ jsNumToString hd)

/-- `buildSandboxCreateArgs` from `src/docker.ts`. `createdAtMs` is passed
explicitly (the only caller leaves it to default to `Date.now()`, which this
model supplies from the world clock). -/
def buildSandboxCreateArgs (name : String) (cfg : SandboxDockerConfig) (scopeKey : String)
    (createdAtMs : Rat) (labels : List (String × String)) (configHash : Option String) :
    List String :=
  let args := ["create", "--name", name]
  let args := args ++ ["--label", "wopr.sandbox=1"]
  let args := args ++ ["--label", "wopr.sessionKey=" ++ scopeKey]
  let args := args ++ ["--label", "wopr.createdAtMs=" ++ jsNumToString createdAtMs]
  let args := args ++ (match configHash with
    | some h => if h ≠ "" then ["--label", "wopr.configHash=" ++ h] else []
    | none => [])
  let args := args ++ (labels.filter (fun p => p.1 ≠ "" && p.2 ≠ "")).flatMap
    (fun p => ["--label", p.1 ++ "=" ++ p.2])
  let args := args ++ (if cfg.readOnlyRoot then ["--read-only"] else [])
  let args := args ++ cfg.tmpfs.flatMap (fun e => ["--tmpfs", e])
  let args := args ++ (if cfg.network ≠ "" then ["--network", cfg.network] else [])
  let args := args ++ (match cfg.user with
    | some u => if u ≠ "" then ["--user", u] else []
    | none => [])
  let args := args ++ cfg.capDrop.flatMap (fun c => ["--cap-drop", c])
  let args := args ++ ["--security-opt", "no-new-privileges"]
  let args := args ++ (match cfg.seccompProfile with
    | some p => if p ≠ "" then ["--security-opt", "seccomp=" ++ p] else []
    | none => [])
  let args := args ++ (match cfg.apparmorProfile with
    | some p => if p ≠ "" then ["--security-opt", "apparmor=" ++ p] else []
    | none => [])
  let args := args ++ (cfg.dns.getD []).flatMap
    (fun e => if jsTrim e ≠ "" then ["--dns", e] else [])
  let args := args ++ (cfg.extraHosts.getD []).flatMap
    (fun e => if jsTrim e ≠ "" then ["--add-host", e] else [])
  let args := args ++ (match cfg.pidsLimit with
    | some p => if p > 0 then ["--pids-limit", jsNumToString p] else []
    | none => [])
  let args := args ++ (match normalizeDockerLimit cfg.memory with
    | some m => ["--memory", m]
    | none => [])
  let args := args ++ (match normalizeDockerLimit cfg.memorySwap with
    | some m => ["--memory-swap", m]
    | none => [])
  let args := args ++ (match cfg.cpus with
    | some c => if c > 0 then ["--cpus", jsNumToString c] else []
    | none => [])
  let args := args ++ (cfg.ulimits.getD []).flatMap
    (fun p => match formatUlimitValue p.1 p.2 with
      | some f => ["--ulimit", f]
      | none => [])
  let args := args ++ (match cfg.binds with
    | some bs => bs.flatMap (fun b => ["-v", b])
    | none => [])
  args

/-- Is `needle` a prefix of `hay`? -/
def listStartsWith : List Char → List Char → Bool
  | [], _ => true
  | _ :: _, [] => false
  | a :: as, b :: bs => a = b && listStartsWith as bs

/-- Substring containment (`String.prototype.includes`). -/
def containsSubstr (hay needle : String) : Bool :=
  go hay.data
where
  go : List Char → Bool
    | [] => listStartsWith needle.data []
    | c :: rest => listStartsWith needle.data (c :: rest) || go rest

/-- The `docker inspect -f` format string for the running state. -/
def FMT_RUNNING : String := "\x7b\x7b.State.Running\x7d\x7d"

/-- The `docker inspect -f` format string for the config-hash label. -/
def FMT_CONFIGHASH : String := "\x7b\x7b index .Config.Labels \"wopr.configHash\" \x7d\x7d"

/-- `dockerContainerState` from `src/docker.ts`: `(exists, running)`. -/
def dockerContainerStateR (w : DockerWorld) (name : String) : Bool × Bool :=
  let r := w.respond ["inspect", "-f", FMT_RUNNING, name]
  if r.code ≠ 0 then (false, false)
  else (true, jsTrim r.stdout = "true")

/-- `readContainerConfigHash` from `src/docker.ts`. -/
def readContainerConfigHashR (w : DockerWorld) (name : String) : Option String :=
  let r := w.respond ["inspect", "-f", FMT_CONFIGHASH, name]
  if r.code ≠ 0 then none
  else
    let raw := jsTrim r.stdout
    if raw = "" || raw = "<no value>" then none else some raw

/-- `ensureDockerImage` from `src/docker.ts`. Returns the trace of Docker
commands issued on success. -/
def ensureDockerImageR (w : DockerWorld) (image : String) : Except String (List (List String)) :=
  let r := w.respond ["image", "inspect", image]
  let t0 := [["image", "inspect", image]]
  if r.code = 0 then .ok t0
  else if containsSubstr (jsTrim r.stderr) "No such image" then
    if image = DEFAULT_SANDBOX_IMAGE then
      match execDockerR w ["pull", "debian:bookworm-slim"] false with
      | .error e => .error e
      | .ok _ =>
        match execDockerR w ["tag", "debian:bookworm-slim", DEFAULT_SANDBOX_IMAGE] false with
        | .error e => .error e
        | .ok _ => .ok (t0 ++ [["pull", "debian:bookworm-slim"],
            ["tag", "debian:bookworm-slim", DEFAULT_SANDBOX_IMAGE]])
    else .error ("Sandbox image not found: " ++ image ++ ". Build or pull it first.")
  else .error ("Failed to inspect sandbox image: " ++ jsTrim r.stderr)

/-- `createSandboxContainer` from `src/docker.ts`: ensure the image, create,
start, and run the validated setup command if configured. Returns the trace
of Docker commands issued on success. -/
def createSandboxContainerR (w : DockerWorld) (name : String) (cfg : SandboxDockerConfig)
    (workspaceDir workspaceAccess scopeKey : String) (configHash : Option String) :
    Except String (List (List String)) :=
  match ensureDockerImageR w cfg.image with
  | .error e => .error e
  | .ok t0 =>
    let args := buildSandboxCreateArgs name cfg scopeKey w.now [] configHash
    let args := args ++ ["--workdir", cfg.workdir]
    let mountSuffix := if workspaceAccess = "ro" then ":ro" else ""
    let args := args ++ ["-v", workspaceDir ++ ":" ++ cfg.workdir ++ mountSuffix]
    let args := args ++ [cfg.image, "sleep", "infinity"]
    match execDockerR w args false with
    | .error e => .error e
    | .ok _ =>
      match execDockerR w ["start", name] false with
      | .error e => .error e
      | .ok _ =>
        match cfg.setupCommand with
        | some sc =>
          if jsTrim sc ≠ "" then
            match validateCommand sc with
            | .error e => .error e
            | .ok sanitized =>
              match execDockerR w ["exec", "-i", name, "sh", "-c", "--", sanitized] false with
              | .error e => .error e
              | .ok _ => .ok (t0 ++ [args, ["start", name],
                  ["exec", "-i", name, "sh", "-c", "--", sanitized]])
          else .ok (t0 ++ [args, ["start", name]])
        | none => .ok (t0 ++ [args, ["start", name]])

/-- `ensureSandboxContainer` from `src/docker.ts`. The result on success is
the returned container name, the trace of every Docker command issued, and
the updated registry. -/
def ensureSandboxContainer (w : DockerWorld) (reg : Registry) (sessionKey workspaceDir : String)
    (cfg : SandboxConfig) : Except String (String × List (List String) × Registry) :=
  let scopeKey := resolveSandboxScopeKey cfg.scope sessionKey
  let slug := if cfg.scope = "shared" then "shared" else slugifySessionKey scopeKey
  let name := cfg.docker.containerPrefix ++ slug
  let containerName := String.mk (name.data.take 63)
  let expectedHash := computeSandboxConfigHash (hashInputJ cfg.docker cfg.workspaceAccess workspaceDir)
  let now := w.now
  let st := dockerContainerStateR w containerName
  let trace0 := [["inspect", "-f", FMT_RUNNING, containerName]]
  -- The common tail (steps 5–7): create or start as needed, upsert the
  -- registry, return the name. Receives the possibly-mutated
  -- `hasContainer` / `running` flags.
  let finalize : Bool → Bool → Bool → Option String → List (List String) →
      Except String (String × List (List String) × Registry) :=
    fun hasContainer running hashMismatch currentHash tr =>
      let afterCreate : Except String (List (List String)) :=
        if !hasContainer then
          createSandboxContainerR w containerName cfg.docker workspaceDir cfg.workspaceAccess
            scopeKey (some expectedHash)
        else if !running then
          match execDockerR w ["start", containerName] false with
          | .error e => .error e
          | .ok _ => .ok [["start", containerName]]
        else .ok []
      match afterCreate with
      | .error e => .error e
      | .ok tc =>
        let reg' := updateRegistrySQL reg
          { containerName := containerName
            sessionKey := scopeKey
            createdAtMs := now
            lastUsedAtMs := now
            image := cfg.docker.image
            configHash := if hashMismatch && running then currentHash else some expectedHash }
        .ok (containerName, tr ++ tc, reg')
  if st.1 then
    let registryEntry := repoFindById reg containerName
    let labelHash := readContainerConfigHashR w containerName
    let tr := trace0 ++ [["inspect", "-f", FMT_CONFIGHASH, containerName]]
    let currentHash := match labelHash with
      | some h => some h
      | none => registryEntry.bind (fun e => e.configHash)
    let hashMismatch := match currentHash with
      | none => true
      | some h => h ≠ expectedHash
    if hashMismatch then
      let isHot := st.2 && (match registryEntry.map (fun e => e.lastUsedAtMs) with
        | none => true
        | some lu => now - lu < 5 * 60 * 1000)
      if isHot then
        finalize true st.2 hashMismatch currentHash tr
      else
        let _ := execDockerR w ["rm", "-f", containerName] true
        finalize false false hashMismatch currentHash (tr ++ [["rm", "-f", containerName]])
    else
      finalize true st.2 hashMismatch currentHash tr
  else
    finalize false false false none trace0

/-- Lowercase hex digit class, `[0-9a-f]`. -/
def isLowerHex (c : Char) : Bool :=
  ('0' ≤ c && c ≤ '9') || ('a' ≤ c && c ≤ 'f')

/-- Decidable matcher for the anchored slug regex: a 1–32 character base over
the slug alphabet, a hyphen, then exactly 8 lowercase hex digits. Checked
from the end of the string, where the regex forces the decomposition. -/
def matchesSlugPattern (s : String) : Bool :=
  let l := s.data.reverse
  decide ((l.take 8).length = 8) && (l.take 8).all isLowerHex &&
  decide ((l.drop 8).take 1 = ['-']) &&
  decide (1 ≤ (l.drop 9).length) && decide ((l.drop 9).length ≤ 32) &&
  (l.drop 9).all slugAllowed

/-- A world for the hot-window witness: the container exists and is running,
its config-hash label reads `"stale"`, and every other Docker command fails. -/
def hotWorld : DockerWorld :=
  ⟨1700000000000, fun args =>
    if args.getD 2 "" = FMT_RUNNING then ⟨"true", "", 0⟩
    else if args.getD 2 "" = FMT_CONFIGHASH then ⟨"stale", "", 0⟩
    else ⟨"", "", 1⟩⟩

deriving instance DecidableEq for Except

attribute [local semireducible] Rat.mul Rat.add Rat.sub Rat.inv

/-- A concrete resolved configuration (all-default Docker settings) used by
witnesses. -/
def sampleCfg : SandboxConfig :=
  { mode := "all"
    scope := "session"
    workspaceAccess := "none"
    workspaceRoot := "/ws"
    docker := resolveSandboxDockerConfig none none
    tools := {}
    prune := ⟨24, 7⟩ }

/-! ## Theorems -/

/-! ### C1 — `validateCommand` -/

/-- C1: `validateCommand` throws if the command contains a null byte; throws
if the command trims to the empty string; throws naming the offending
character when (absent a null byte) the trimmed command contains a shell
metacharacter from `; & | ` $ < > \`; and otherwise returns the trimmed
command. -/
theorem validateCommand_spec (s : String) :
    (s.data.contains (Char.ofNat 0) = true → ∃ m, validateCommand s = .error m) ∧
    (jsTrim s = "" → ∃ m, validateCommand s = .error m) ∧
    (s.data.contains (Char.ofNat 0) = false →
      (∃ c ∈ (jsTrim s).data, SHELL_METACHARS.contains c = true) →
      ∃ c, SHELL_METACHARS.contains c = true ∧ c ∈ (jsTrim s).data ∧
        validateCommand s = .error (metacharMessage c)) ∧
    (s.data.contains (Char.ofNat 0) = false → jsTrim s ≠ "" →
      (∀ c ∈ (jsTrim s).data, SHELL_METACHARS.contains c = false) →
      validateCommand s = .ok (jsTrim s)) := by
  refine ⟨fun h0 => ?_, fun hemp => ?_, fun h0 hmc => ?_, fun h0 hne hno => ?_⟩
  · exact ⟨_, by simp only [validateCommand]; rw [h0]; rfl⟩
  · by_cases h0 : s.data.contains (Char.ofNat 0) = true
    · exact ⟨_, by simp only [validateCommand]; rw [h0]; rfl⟩
    · have h0' : s.data.contains (Char.ofNat 0) = false := by
        revert h0; cases s.data.contains (Char.ofNat 0) <;> simp
      refine ⟨"Command is empty", ?_⟩
      simp only [validateCommand]
      rw [h0', hemp]
      rfl
  · obtain ⟨c, hcmem, hcmc⟩ := hmc
    have hne' : ¬(jsTrim s = "") := by
      intro h
      rw [h] at hcmem
      simp at hcmem
    have hfind : ((jsTrim s).data.find? (fun c => SHELL_METACHARS.contains c)).isSome := by
      rw [List.find?_isSome]
      exact ⟨c, hcmem, hcmc⟩
    obtain ⟨c', hc'⟩ := Option.isSome_iff_exists.mp hfind
    refine ⟨c', List.find?_some hc', List.mem_of_find?_eq_some hc', ?_⟩
    simp only [validateCommand]
    rw [h0, if_neg (by decide), if_neg hne', hc']
  · have hfind : (jsTrim s).data.find? (fun c => SHELL_METACHARS.contains c) = none := by
      rw [List.find?_eq_none]
      intro c hc
      simpa using hno c hc
    simp only [validateCommand]
    rw [h0, if_neg (by decide), if_neg hne, hfind]

/-- C1 witness: the spec's literal examples, via `validateCommand_spec`. -/
theorem validateCommand_spec_witness :
    (∃ m, validateCommand "ls\x00rm" = .error m) ∧
    (∃ m, validateCommand "   " = .error m) ∧
    (∃ c, SHELL_METACHARS.contains c = true ∧ c ∈ (jsTrim "ls | grep foo").data ∧
      validateCommand "ls | grep foo" = .error (metacharMessage c)) ∧
    validateCommand "  echo hi  " = .ok (jsTrim "  echo hi  ") :=
  ⟨(validateCommand_spec "ls\x00rm").1 (by decide),
   (validateCommand_spec "   ").2.1 (by decide),
   (validateCommand_spec "ls | grep foo").2.2.1 (by decide) (by decide),
   (validateCommand_spec "  echo hi  ").2.2.2 (by decide) (by decide) (by decide)⟩

/-! ### C4 — deny dominates allow -/

/-- C4: whenever any compiled deny pattern matches the normalized tool name,
`isToolAllowed` returns `false`, regardless of the allow list. -/
theorem isToolAllowed_deny_dominates (policy : SandboxToolPolicy) (name : String)
    (h : matchesAny (normalizeTool name) (compilePatterns policy.deny) = true) :
    isToolAllowed policy name = false := by
  unfold isToolAllowed
  simp [h]

/-- C4 witness: `exec_command` both allowed and denied is denied. -/
theorem isToolAllowed_deny_dominates_witness :
    matchesAny (normalizeTool "exec_command")
      (compilePatterns (SandboxToolPolicy.mk (some ["exec_command"]) (some ["exec_command"])).deny)
      = true ∧
    isToolAllowed ⟨some ["exec_command"], some ["exec_command"]⟩ "exec_command" = false :=
  ⟨by decide, isToolAllowed_deny_dominates ⟨some ["exec_command"], some ["exec_command"]⟩
    "exec_command" (by decide)⟩

/-! ### C3 — registry upsert preserves `createdAtMs` and `image` -/

theorem repoFindById_repoUpdate (reg : Registry) (id : String) (rec : SandboxRegistryRecord)
    (hid : rec.id = id) (h : (repoFindById reg id).isSome) :
    repoFindById (repoUpdate reg id rec) id = some rec := by
  induction reg with
  | nil => simp [repoFindById] at h
  | cons x xs ih =>
    by_cases hx : x.id = id
    · simp [repoFindById, repoUpdate, hx, hid]
    · have h' : (repoFindById xs id).isSome := by
        simpa [repoFindById, List.find?_cons, hx] using h
      simpa [repoFindById, repoUpdate, hx] using ih h'

/-- C3: an upsert over an existing record keeps the stored `createdAtMs` and
`image`, takes the new `sessionKey` and `lastUsedAtMs`, and takes the new
`configHash` when provided, the stored one otherwise. -/
theorem updateRegistrySQL_preserves (reg : Registry) (e : RegistryUpsert)
    (r : SandboxRegistryRecord) (h : repoFindById reg e.containerName = some r) :
    repoFindById (updateRegistrySQL reg e) e.containerName =
      some { id := e.containerName, containerName := e.containerName,
             sessionKey := e.sessionKey, createdAtMs := r.createdAtMs,
             lastUsedAtMs := e.lastUsedAtMs, image := r.image,
             configHash := e.configHash.or r.configHash } := by
  unfold updateRegistrySQL
  rw [h]
  exact repoFindById_repoUpdate reg e.containerName _ rfl (by simp [h])

/-- C3 witness: the spec's two-upsert scenario — the second upsert's
`createdAtMs` and `image` are ignored, its `sessionKey`, `lastUsedAtMs` and
`configHash` win. -/
theorem updateRegistrySQL_preserves_witness :
    repoFindById
      (updateRegistrySQL
        (updateRegistrySQL []
          { containerName := "c", sessionKey := "s1", createdAtMs := 1,
            lastUsedAtMs := 10, image := "i1", configHash := some "h1" })
        { containerName := "c", sessionKey := "s2", createdAtMs := 2,
          lastUsedAtMs := 20, image := "i2", configHash := none })
      "c" =
    some { id := "c", containerName := "c", sessionKey := "s2", createdAtMs := 1,
           lastUsedAtMs := 20, image := "i1", configHash := some "h1" } := by
  have h := updateRegistrySQL_preserves
    (updateRegistrySQL []
      { containerName := "c", sessionKey := "s1", createdAtMs := 1,
        lastUsedAtMs := 10, image := "i1", configHash := some "h1" })
    { containerName := "c", sessionKey := "s2", createdAtMs := 2,
      lastUsedAtMs := 20, image := "i2", configHash := none }
    { id := "c", containerName := "c", sessionKey := "s1", createdAtMs := 1,
      lastUsedAtMs := 10, image := "i1", configHash := some "h1" }
    (by decide)
  exact h.trans (by decide)

/-! ### C6 — env merge in `resolveSandboxDockerConfig` -/

theorem find?_filter_of_imp {α : Type} (l : List α) (p q : α → Bool)
    (h : ∀ x, p x = true → q x = true) : (l.filter q).find? p = l.find? p := by
  induction l with
  | nil => simp
  | cons x xs ih =>
    cases hp : p x with
    | true => simp [List.filter_cons, h x hp, List.find?_cons, hp]
    | false =>
      cases hq : q x with
      | true => simp [List.filter_cons, hq, List.find?_cons, hp, ih]
      | false => simp [List.filter_cons, hq, List.find?_cons, hp, ih]

/-- Key-wise description of JavaScript object spread: `b` wins, then `a`. -/
theorem objLookup_objMerge {α : Type} (a b : List (String × α)) (k : String) :
    objLookup (objMerge a b) k = (objLookup b k).or (objLookup a k) := by
  unfold objMerge objLookup
  rw [List.find?_append]
  cases ha : a.find? (fun p => decide (p.1 = k)) with
  | none =>
    have hmap :
        (a.map (fun p => (p.1, ((b.find? (fun q => decide (q.1 = p.1))).map (fun q => q.2)).getD p.2))).find?
          (fun p => decide (p.1 = k)) = none := by
      rw [List.find?_map]
      simp only [Function.comp_def]
      rw [show (fun x : String × α =>
            decide ((x.1, ((b.find? (fun q => decide (q.1 = x.1))).map (fun q => q.2)).getD x.2).1 = k)) =
          (fun x : String × α => decide (x.1 = k)) from rfl]
      rw [ha]
      rfl
    have hfilter :
        ((b.filter (fun q => (a.find? (fun p => decide (p.1 = q.1))).isNone)).find?
          (fun p => decide (p.1 = k))) = b.find? (fun p => decide (p.1 = k)) := by
      refine find?_filter_of_imp b _ _ (fun x hx => ?_)
      have hxk : x.1 = k := of_decide_eq_true hx
      rw [hxk, ha]
      rfl
    rw [hmap, hfilter]
    simp
  | some pr =>
    have hpk' := @List.find?_some _ (fun p : String × α => decide (p.1 = k)) pr a ha
    have hpk : pr.1 = k := by simpa using hpk'
    have hmap :
        (a.map (fun p => (p.1, ((b.find? (fun q => decide (q.1 = p.1))).map (fun q => q.2)).getD p.2))).find?
          (fun p => decide (p.1 = k)) =
          some (pr.1, ((b.find? (fun q => decide (q.1 = pr.1))).map (fun q => q.2)).getD pr.2) := by
      rw [List.find?_map]
      simp only [Function.comp_def]
      rw [show (fun x : String × α =>
            decide ((x.1, ((b.find? (fun q => decide (q.1 = x.1))).map (fun q => q.2)).getD x.2).1 = k)) =
          (fun x : String × α => decide (x.1 = k)) from rfl]
      rw [ha]
      rfl
    rw [hmap]
    simp only [Option.or_some, Option.map_some]
    rw [hpk]
    cases hb : b.find? (fun q => decide (q.1 = k)) with
    | none => simp
    | some q => simp

/-- C6: the resolved `env` — with a session env present, the session map
key-wise overrides the global env (or the `\x7bLANG: "C.UTF-8"\x7d` default
when the global env is absent); with no session env, the global env or that
default is taken verbatim. -/
theorem resolveSandboxDockerConfig_env (g s : Option SandboxDockerConfigPartial) :
    (∀ se, s.bind (fun x => x.env) = some se →
      ∀ k, objLookup (resolveSandboxDockerConfig g s).env k =
        (objLookup se k).or
          (objLookup ((g.bind (fun x => x.env)).getD [("LANG", "C.UTF-8")]) k)) ∧
    (s.bind (fun x => x.env) = none →
      (resolveSandboxDockerConfig g s).env = (g.bind (fun x => x.env)).getD [("LANG", "C.UTF-8")]) := by
  constructor
  · intro se hse k
    simp only [resolveSandboxDockerConfig, hse]
    exact objLookup_objMerge _ se k
  · intro hse
    simp only [resolveSandboxDockerConfig, hse]

/-- C6 witness: the spec's literal env-merge example. -/
theorem resolveSandboxDockerConfig_env_witness :
    objLookup (resolveSandboxDockerConfig
      (some { env := some [("LANG", "en_US.UTF-8"), ("FOO", "bar")] })
      (some { env := some [("FOO", "baz"), ("EXTRA", "v")] })).env "FOO" = some "baz" ∧
    objLookup (resolveSandboxDockerConfig
      (some { env := some [("LANG", "en_US.UTF-8"), ("FOO", "bar")] })
      (some { env := some [("FOO", "baz"), ("EXTRA", "v")] })).env "LANG" = some "en_US.UTF-8" ∧
    objLookup (resolveSandboxDockerConfig
      (some { env := some [("LANG", "en_US.UTF-8"), ("FOO", "bar")] })
      (some { env := some [("FOO", "baz"), ("EXTRA", "v")] })).env "EXTRA" = some "v" :=
  ⟨((resolveSandboxDockerConfig_env
      (some { env := some [("LANG", "en_US.UTF-8"), ("FOO", "bar")] })
      (some { env := some [("FOO", "baz"), ("EXTRA", "v")] })).1
      [("FOO", "baz"), ("EXTRA", "v")] rfl "FOO").trans (by decide),
   ((resolveSandboxDockerConfig_env
      (some { env := some [("LANG", "en_US.UTF-8"), ("FOO", "bar")] })
      (some { env := some [("FOO", "baz"), ("EXTRA", "v")] })).1
      [("FOO", "baz"), ("EXTRA", "v")] rfl "LANG").trans (by decide),
   ((resolveSandboxDockerConfig_env
      (some { env := some [("LANG", "en_US.UTF-8"), ("FOO", "bar")] })
      (some { env := some [("FOO", "baz"), ("EXTRA", "v")] })).1
      [("FOO", "baz"), ("EXTRA", "v")] rfl "EXTRA").trans (by decide)⟩

/-! ### C8 — pruning removes due entries even when Docker rm fails -/

theorem repoFindById_repoDelete_self (reg : Registry) (n : String) :
    repoFindById (repoDelete reg n) n = none := by
  unfold repoFindById repoDelete
  rw [List.find?_eq_none]
  intro x hx
  have hne := (List.mem_filter.mp hx).2
  simp at hne ⊢
  exact hne

theorem repoFindById_repoDelete_none (reg : Registry) (n m : String)
    (h : repoFindById reg n = none) : repoFindById (repoDelete reg m) n = none := by
  unfold repoFindById repoDelete
  rw [List.find?_eq_none]
  intro x hx
  have hxreg := (List.mem_filter.mp hx).1
  have := List.find?_eq_none.mp h x hxreg
  exact this

/-- Once a container name is gone from the registry, the remaining loop
iterations (which only delete) never bring it back. -/
theorem pruneLoop_none_mono (w : DockerWorld) (p : SandboxPruneConfig)
    (entries : List SandboxRegistryRecord) :
    ∀ reg n, repoFindById reg n = none →
      repoFindById (pruneLoop w p entries reg).1 n = none := by
  induction entries with
  | nil => intro reg n h; simpa [pruneLoop] using h
  | cons e rest ih =>
    intro reg n h
    by_cases hev : shouldEvict w.now p e = true
    · have h' : repoFindById (removeRegistryEntrySQL reg e.containerName) n = none :=
        repoFindById_repoDelete_none reg n e.containerName h
      simpa [pruneLoop, hev] using ih _ n h'
    · simpa [pruneLoop, hev] using ih _ n h

/-- C8: with thresholds not both zero, every registry entry whose idle or age
threshold is crossed has its registry record removed by the prune pass — for
every world, including those where `docker rm -f` fails. -/
theorem pruneSandboxContainers_evicts (w : DockerWorld) (cfg : SandboxConfig) (reg : Registry)
    (e : SandboxRegistryRecord) (hmem : e ∈ reg)
    (hth : ¬(cfg.prune.idleHours = 0 ∧ cfg.prune.maxAgeDays = 0))
    (hev : shouldEvict w.now cfg.prune e = true) :
    repoFindById (pruneSandboxContainers w cfg reg).1 e.containerName = none := by
  have hloop : ∀ entries reg', e ∈ entries →
      repoFindById (pruneLoop w cfg.prune entries reg').1 e.containerName = none := by
    intro entries
    induction entries with
    | nil => intro reg' h; simp at h
    | cons a rest ih =>
      intro reg' hmem'
      rcases List.mem_cons.mp hmem' with he | he
      · subst he
        have hdel : repoFindById (removeRegistryEntrySQL reg' e.containerName) e.containerName = none :=
          repoFindById_repoDelete_self reg' e.containerName
        simpa [pruneLoop, hev] using pruneLoop_none_mono w cfg.prune rest _ _ hdel
      · by_cases hev' : shouldEvict w.now cfg.prune a = true
        · simpa [pruneLoop, hev'] using ih _ he
        · simpa [pruneLoop, hev'] using ih _ he
  have hguard : ¬(cfg.prune.idleHours = 0 && cfg.prune.maxAgeDays = 0) = true := by
    simpa [Bool.and_eq_true, decide_eq_true_eq] using hth
  unfold pruneSandboxContainers
  rw [if_neg hguard]
  exact hloop reg reg hmem

/-- C8 witness: an idle entry is evicted from the registry although the
world fails every `docker rm -f` (exit code 1). -/
theorem pruneSandboxContainers_evicts_witness :
    shouldEvict (1000000000 : Rat) sampleCfg.prune
      { id := "wopr-sbx-x", containerName := "wopr-sbx-x", sessionKey := "x",
        createdAtMs := 0, lastUsedAtMs := 0, image := "i" } = true ∧
    ((DockerWorld.mk 1000000000 (fun _ => ⟨"", "boom", 1⟩)).respond ["rm", "-f", "wopr-sbx-x"]).code = 1 ∧
    repoFindById
      (pruneSandboxContainers ⟨1000000000, fun _ => ⟨"", "boom", 1⟩⟩ sampleCfg
        [{ id := "wopr-sbx-x", containerName := "wopr-sbx-x", sessionKey := "x",
           createdAtMs := 0, lastUsedAtMs := 0, image := "i" }]).1 "wopr-sbx-x" = none :=
  ⟨by decide, rfl,
   pruneSandboxContainers_evicts ⟨1000000000, fun _ => ⟨"", "boom", 1⟩⟩ sampleCfg
     [{ id := "wopr-sbx-x", containerName := "wopr-sbx-x", sessionKey := "x",
        createdAtMs := 0, lastUsedAtMs := 0, image := "i" }]
     { id := "wopr-sbx-x", containerName := "wopr-sbx-x", sessionKey := "x",
       createdAtMs := 0, lastUsedAtMs := 0, image := "i" }
     (by decide) (by decide) (by decide)⟩

/-! ### C9 — `maybePruneSandboxes` debouncing -/

/-- C9 counterexample: three calls from a fresh process (`lastPruneAtMs = 0`).
Call A at t = 1000000 performs a pass; call B at t = 1280000 is debounced;
call C at t = 1530000 — only 250000 ms after B, i.e. the pair (B, C) is less
than five minutes apart — performs a pass. So it is not the case that for
every pair of calls less than five minutes apart only the first performs the
underlying prune pass: here the second of the pair prunes and the first does
not. -/
theorem maybePruneSandboxes_pair_counterexample :
    (maybePruneSandboxes 0 ⟨1000000, fun _ => ⟨"", "", 0⟩⟩ sampleCfg [] none).2.2.2 = true ∧
    (maybePruneSandboxes 0 ⟨1000000, fun _ => ⟨"", "", 0⟩⟩ sampleCfg [] none).1 = 1000000 ∧
    (maybePruneSandboxes 1000000 ⟨1280000, fun _ => ⟨"", "", 0⟩⟩ sampleCfg [] none).2.2.2 = false ∧
    (maybePruneSandboxes 1000000 ⟨1280000, fun _ => ⟨"", "", 0⟩⟩ sampleCfg [] none).1 = 1000000 ∧
    (1530000 - 1280000 : Rat) < 5 * 60 * 1000 ∧
    (maybePruneSandboxes 1000000 ⟨1530000, fun _ => ⟨"", "", 0⟩⟩ sampleCfg [] none).2.2.2 = true := by
  refine ⟨by decide, by decide, by decide, by decide, by norm_num, by decide⟩

/-- C9 (amended): for two consecutive `maybePrune` calls less than five
minutes apart, at most one performs an underlying prune pass; if the first
performs a pass the second returns without pruning; and a performed pass
advances the debounce timestamp to the call time even when the pass itself
fails. -/
theorem maybePruneSandboxes_debounce (last : Rat) (w1 w2 : DockerWorld)
    (cfg : SandboxConfig) (reg1 reg2 : Registry) (err1 err2 : Option String)
    (hlt : w2.now - w1.now < 5 * 60 * 1000) :
    (¬((maybePruneSandboxes last w1 cfg reg1 err1).2.2.2 = true ∧
       (maybePruneSandboxes (maybePruneSandboxes last w1 cfg reg1 err1).1 w2 cfg reg2 err2).2.2.2
         = true)) ∧
    ((maybePruneSandboxes last w1 cfg reg1 err1).2.2.2 = true →
      (maybePruneSandboxes (maybePruneSandboxes last w1 cfg reg1 err1).1 w2 cfg reg2 err2).2.2.2
        = false) ∧
    ((maybePruneSandboxes last w1 cfg reg1 err1).2.2.2 = true →
      (maybePruneSandboxes last w1 cfg reg1 err1).1 = w1.now) := by
  by_cases h1 : w1.now - last < 5 * 60 * 1000
  · have hp1 : (maybePruneSandboxes last w1 cfg reg1 err1).2.2.2 = false := by
      simp [maybePruneSandboxes, h1]
    refine ⟨fun hc => by simp [hp1] at hc, fun hc => by simp [hp1] at hc, fun hc => by simp [hp1] at hc⟩
  · have hl1 : (maybePruneSandboxes last w1 cfg reg1 err1).1 = w1.now := by
      cases err1 with
      | none => simp [maybePruneSandboxes, h1]
      | some msg => simp [maybePruneSandboxes, h1]
    have hp2 : (maybePruneSandboxes (maybePruneSandboxes last w1 cfg reg1 err1).1 w2 cfg reg2 err2).2.2.2
        = false := by
      rw [hl1]
      simp [maybePruneSandboxes, hlt]
    exact ⟨fun hc => by simp [hp2] at hc, fun _ => hp2, fun _ => hl1⟩

/-- C9 witness for the amended claim: the first call passes (although the
pass fails with an injected error, the timestamp advances to its call time),
and the second call 280000 ms later is debounced. -/
theorem maybePruneSandboxes_debounce_witness :
    (maybePruneSandboxes 0 ⟨1000000, fun _ => ⟨"", "", 0⟩⟩ sampleCfg [] (some "boom")).1 = 1000000 ∧
    (maybePruneSandboxes (maybePruneSandboxes 0 ⟨1000000, fun _ => ⟨"", "", 0⟩⟩ sampleCfg []
        (some "boom")).1
      ⟨1280000, fun _ => ⟨"", "", 0⟩⟩ sampleCfg [] none).2.2.2 = false := by
  have h := maybePruneSandboxes_debounce 0 ⟨1000000, fun _ => ⟨"", "", 0⟩⟩
    ⟨1280000, fun _ => ⟨"", "", 0⟩⟩ sampleCfg [] [] (some "boom") none (by norm_num)
  exact ⟨h.2.2 (by decide), h.2.1 (by decide)⟩

/-! ### C7 / C10 — `slugifySessionKey` -/

theorem isLowerHex_hexChar (n : Nat) : isLowerHex (hexChar n) = true := by
  unfold hexChar
  by_cases h10 : n < 10
  · rw [if_pos h10]
    interval_cases n <;> decide
  · rw [if_neg h10]
    by_cases h16 : n < 16
    · rw [if_pos h16]
      interval_cases n <;> decide
    · rw [if_neg h16]
      decide

theorem wordHex_all (w : Nat) : (wordHex w).all isLowerHex = true := by
  simp [wordHex, isLowerHex_hexChar]

theorem sha256hexChars_all (msg : List Nat) : (sha256hexChars msg).all isLowerHex = true := by
  simp [sha256hexChars, List.all_append, wordHex_all]

theorem sha256hexChars_length (msg : List Nat) : (sha256hexChars msg).length = 64 := by
  simp [sha256hexChars, wordHex]

theorem all_take_of_all {α : Type} {p : α → Bool} {l : List α} (h : l.all p = true) (n : Nat) :
    (l.take n).all p = true := by
  rw [List.all_eq_true] at h ⊢
  exact fun x hx => h x (List.take_subset n l hx)

mutual

theorem replaceDisallowedRuns_all : ∀ l, (replaceDisallowedRuns l).all slugAllowed = true
  | [] => by simp [replaceDisallowedRuns]
  | c :: rest => by
    by_cases h : slugAllowed c = true
    · simp only [replaceDisallowedRuns]
      rw [if_pos h]
      simp [List.all_cons, h, replaceDisallowedRuns_all rest]
    · simp only [replaceDisallowedRuns]
      rw [if_neg h]
      simp [List.all_cons, skipDisallowedRun_all rest,
        (show slugAllowed (Char.ofNat 45) = true by decide)]

theorem skipDisallowedRun_all : ∀ l, (skipDisallowedRun l).all slugAllowed = true
  | [] => by simp [skipDisallowedRun]
  | c :: rest => by
    by_cases h : slugAllowed c = true
    · simp only [skipDisallowedRun]
      rw [if_pos h]
      simp [List.all_cons, h, replaceDisallowedRuns_all rest]
    · simp only [skipDisallowedRun]
      rw [if_neg h]
      exact skipDisallowedRun_all rest

end

theorem mem_stripHyphens {c : Char} {l : List Char} (h : c ∈ stripHyphens l) : c ∈ l := by
  unfold stripHyphens at h
  have h1 := List.mem_reverse.mp h
  have h2 := (List.dropWhile_sublist _).subset h1
  have h3 := List.mem_reverse.mp h2
  exact (List.dropWhile_sublist _).subset h3

theorem stripHyphens_all {p : Char → Bool} {l : List Char} (h : l.all p = true) :
    (stripHyphens l).all p = true := by
  rw [List.all_eq_true] at h ⊢
  exact fun x hx => h x (mem_stripHyphens hx)

/-- Structural decomposition of a slug: a 1-32 character base over the slug
alphabet, a hyphen, and an 8-character lowercase-hex hash suffix. -/
theorem slugifySessionKey_parts (s : String) :
    ∃ base hash, slugifySessionKey s = String.mk (base ++ '-' :: hash) ∧
      hash.length = 8 ∧ hash.all isLowerHex = true ∧
      1 ≤ base.length ∧ base.length ≤ 32 ∧ base.all slugAllowed = true := by
  refine ⟨_, _, rfl, ?_, ?_, ?_, ?_, ?_⟩
  · rw [List.length_take, sha256hexChars_length]
    decide
  · exact all_take_of_all (sha256hexChars_all _) 8
  · by_cases he : (stripHyphens (replaceDisallowedRuns
        (List.map asciiLower (if jsTrim s = "" then "session" else jsTrim s).data))).take 32 = []
    · rw [if_pos he]
      decide
    · rw [if_neg he]
      have := List.length_pos.mpr he
      omega
  · by_cases he : (stripHyphens (replaceDisallowedRuns
        (List.map asciiLower (if jsTrim s = "" then "session" else jsTrim s).data))).take 32 = []
    · rw [if_pos he]
      decide
    · rw [if_neg he]
      rw [List.length_take]
      omega
  · by_cases he : (stripHyphens (replaceDisallowedRuns
        (List.map asciiLower (if jsTrim s = "" then "session" else jsTrim s).data))).take 32 = []
    · rw [if_pos he]
      decide
    · rw [if_neg he]
      exact all_take_of_all (stripHyphens_all (replaceDisallowedRuns_all _)) 32

/-- C7: every output of `slugifySessionKey` matches the anchored regex
(1-32 slug-alphabet characters, a hyphen, 8 lowercase hex digits), has length
at most 41, and the function is deterministic. -/
theorem slugifySessionKey_spec (s t : String) (hst : s = t) :
    matchesSlugPattern (slugifySessionKey s) = true ∧
    (slugifySessionKey s).length ≤ 41 ∧
    slugifySessionKey s = slugifySessionKey t := by
  subst hst
  obtain ⟨base, hash, heq, hhlen, hhall, hblen1, hblen32, hball⟩ := slugifySessionKey_parts s
  rw [heq]
  constructor
  · simp only [matchesSlugPattern]
    have hrev : (base ++ '-' :: hash).reverse = hash.reverse ++ ('-' :: base.reverse) := by
      rw [List.reverse_append, List.reverse_cons, List.append_assoc]
      rfl
    simp only [hrev]
    have hrlen : hash.reverse.length = 8 := by rw [List.length_reverse]; exact hhlen
    have htake : (hash.reverse ++ ('-' :: base.reverse)).take 8 = hash.reverse :=
      List.take_left' hrlen
    have hdrop : (hash.reverse ++ ('-' :: base.reverse)).drop 8 = '-' :: base.reverse :=
      List.drop_left' hrlen
    have hdrop9 : (hash.reverse ++ ('-' :: base.reverse)).drop 9 = base.reverse := by
      rw [show (9 : Nat) = 8 + 1 from rfl, ← List.drop_drop, hdrop]
      rfl
    simp only [htake, hdrop, hdrop9]
    simp [hrlen, List.all_reverse, hhall, hball, List.length_reverse, hblen1, hblen32]
  constructor
  · show (base ++ '-' :: hash).length ≤ 41
    rw [List.length_append, List.length_cons, hhlen]
    omega
  · rw [← heq]

/-- C7 witness: the spec properties at the concrete input `"My Session!"`. -/
theorem slugifySessionKey_spec_witness :
    matchesSlugPattern (slugifySessionKey "My Session!") = true ∧
    (slugifySessionKey "My Session!").length ≤ 41 ∧
    slugifySessionKey "My Session!" = slugifySessionKey "My Session!" :=
  slugifySessionKey_spec "My Session!" "My Session!" rfl

set_option maxRecDepth 200000 in
/-- C10: blank inputs (empty or whitespace-only) fall back to the string
`"session"` before hashing, so they collide exactly with the literal input
`"session"`; the 8-hex suffix for a blank input is the SHA-256 prefix of
`"session"`, which differs from that of the empty string. -/
theorem slugifySessionKey_blank_collides :
    slugifySessionKey "" = slugifySessionKey "   " ∧
    slugifySessionKey "   " = slugifySessionKey "session" ∧
    (slugifySessionKey "").data.drop ((slugifySessionKey "").data.length - 8) =
      (sha256hexChars (utf8Encode "session")).take 8 ∧
    (sha256hexChars (utf8Encode "session")).take 8 ≠ (sha256hexChars (utf8Encode "")).take 8 := by
  exact ⟨by decide, by decide, by decide, by decide⟩

/-! ### C2 — hot-window protection in `ensureSandboxContainer` -/

theorem computeSandboxConfigHash_length (j : JVal) : (computeSandboxConfigHash j).length = 64 := by
  show (sha256hexChars _).length = 64
  exact sha256hexChars_length _

/-- C2: when the container exists and is running, its config hash drifts from
the expected hash, and the registry's `lastUsedAtMs` is unknown or less than
five minutes old, `ensureSandboxContainer` issues only the two read-only
inspect commands — no `rm`, no `create`, no `start`, no `exec` — still
upserts the registry (recording the existing hash), and returns the
container's name. -/
theorem ensureSandboxContainer_hot_window
    (w : DockerWorld) (reg : Registry) (sessionKey workspaceDir : String) (cfg : SandboxConfig)
    (containerName expectedHash : String) (currentHash : Option String)
    (hname : containerName = String.mk ((cfg.docker.containerPrefix ++
      (if cfg.scope = "shared" then "shared"
       else slugifySessionKey (resolveSandboxScopeKey cfg.scope sessionKey))).data.take 63))
    (hhash : expectedHash = computeSandboxConfigHash
      (hashInputJ cfg.docker cfg.workspaceAccess workspaceDir))
    (hexists : (dockerContainerStateR w containerName).1 = true)
    (hrun : (dockerContainerStateR w containerName).2 = true)
    (hdrift : (match currentHash with
      | none => true
      | some h => decide (h ≠ expectedHash)) = true)
    (hhot : (match (repoFindById reg containerName).map (fun e => e.lastUsedAtMs) with
      | none => true
      | some lu => decide (w.now - lu < 5 * 60 * 1000)) = true)
    (hcur : currentHash = (match readContainerConfigHashR w containerName with
      | some h => some h
      | none => (repoFindById reg containerName).bind (fun e => e.configHash))) :
    ensureSandboxContainer w reg sessionKey workspaceDir cfg =
      .ok (containerName,
        [["inspect", "-f", FMT_RUNNING, containerName],
         ["inspect", "-f", FMT_CONFIGHASH, containerName]],
        updateRegistrySQL reg
          { containerName := containerName
            sessionKey := resolveSandboxScopeKey cfg.scope sessionKey
            createdAtMs := w.now
            lastUsedAtMs := w.now
            image := cfg.docker.image
            configHash := currentHash }) ∧
    ∀ c ∈ [["inspect", "-f", FMT_RUNNING, containerName],
           ["inspect", "-f", FMT_CONFIGHASH, containerName]],
      c.head? ≠ some "rm" ∧ c.head? ≠ some "create" ∧
      c.head? ≠ some "start" ∧ c.head? ≠ some "exec" := by
  constructor
  · subst hname hhash
    simp only [ensureSandboxContainer]
    simp only [← hcur]
    simp only [hexists, hrun, hhot, hdrift]
    simp
  · intro c hc
    rcases List.mem_cons.mp hc with rfl | hc'
    · refine ⟨by simp, by simp, by simp, by simp⟩
    · rcases List.mem_cons.mp hc' with rfl | hc''
      · refine ⟨by simp, by simp, by simp, by simp⟩
      · simp at hc''

/-- C2 witness: in `hotWorld` (running container, stale hash label, empty
registry) the orchestrator succeeds and issues no `rm`, `create`, `start`
or `exec`. -/
theorem ensureSandboxContainer_hot_window_witness :
    ∃ name tr reg',
      ensureSandboxContainer hotWorld [] "alice" "/ws/alice" sampleCfg = .ok (name, tr, reg') ∧
      ∀ c ∈ tr, c.head? ≠ some "rm" ∧ c.head? ≠ some "create" ∧
        c.head? ≠ some "start" ∧ c.head? ≠ some "exec" := by
  have hne : "stale" ≠ computeSandboxConfigHash
      (hashInputJ sampleCfg.docker sampleCfg.workspaceAccess "/ws/alice") := by
    intro h
    have hlen := computeSandboxConfigHash_length
      (hashInputJ sampleCfg.docker sampleCfg.workspaceAccess "/ws/alice")
    rw [← h] at hlen
    exact absurd hlen (by decide)
  have hdrift : (match (some "stale" : Option String) with
      | none => true
      | some h => decide (h ≠ computeSandboxConfigHash
          (hashInputJ sampleCfg.docker sampleCfg.workspaceAccess "/ws/alice"))) = true := by
    show decide ("stale" ≠ computeSandboxConfigHash
      (hashInputJ sampleCfg.docker sampleCfg.workspaceAccess "/ws/alice")) = true
    exact decide_eq_true hne
  obtain ⟨heq, hall⟩ := ensureSandboxContainer_hot_window hotWorld [] "alice" "/ws/alice" sampleCfg
    (String.mk ((sampleCfg.docker.containerPrefix ++
      (if sampleCfg.scope = "shared" then "shared"
       else slugifySessionKey (resolveSandboxScopeKey sampleCfg.scope "alice"))).data.take 63))
    (computeSandboxConfigHash (hashInputJ sampleCfg.docker sampleCfg.workspaceAccess "/ws/alice"))
    (some "stale") rfl rfl (by decide) (by decide) hdrift (by decide) (by decide)
  exact ⟨_, _, _, heq, hall⟩

/-! ### C5 — canonical hash invariance -/

/-- Two sorted lists that are permutations of each other are equal, provided
the order is antisymmetric on the elements involved. -/
theorem eq_of_perm_of_sorted_on {α : Type} {le : α → α → Bool} :
    ∀ {l₁ l₂ : List α}, l₁.Perm l₂ →
      l₁.Pairwise (fun a b => le a b = true) → l₂.Pairwise (fun a b => le a b = true) →
      (∀ a ∈ l₁, ∀ b ∈ l₁, le a b = true → le b a = true → a = b) →
      l₁ = l₂
  | [], l₂, hp, _, _, _ => (hp.symm.eq_nil).symm ▸ rfl
  | a :: l, [], hp, _, _, _ => absurd hp.length_eq (by simp)
  | a :: l, b :: l₂', hp, hs₁, hs₂, hanti => by
    have hab : a = b := by
      have hamem : a ∈ b :: l₂' := hp.subset (List.mem_cons_self _ _)
      have hbmem : b ∈ a :: l := hp.symm.subset (List.mem_cons_self _ _)
      rcases List.mem_cons.mp hamem with h | hal2
      · exact h
      rcases List.mem_cons.mp hbmem with h | hbl
      · exact h.symm
      have hba : le b a = true := (List.pairwise_cons.mp hs₂).1 a hal2
      have hab' : le a b = true := (List.pairwise_cons.mp hs₁).1 b hbl
      exact hanti a (List.mem_cons_self _ _) b (List.mem_cons_of_mem a hbl) hab' hba
    subst hab
    have htail : l = l₂' :=
      eq_of_perm_of_sorted_on hp.cons_inv (List.Pairwise.of_cons hs₁) (List.Pairwise.of_cons hs₂)
        (fun x hx y hy => hanti x (List.mem_cons_of_mem a hx) y (List.mem_cons_of_mem a hy))
    rw [htail]

theorem primLE_total : ∀ a b : JVal, (primLE a b || primLE b a) = true := by
  intro a b
  cases a <;> cases b <;>
    first
    | rfl
    | (rename_i s t
       show (decide (s ≤ t) || decide (t ≤ s)) = true
       rcases le_total s t with h | h <;> simp [h])
    | (rename_i x y; cases x <;> cases y <;> rfl)

theorem primLE_trans : ∀ a b c : JVal, primLE a b = true → primLE b c = true →
    primLE a c = true := by
  intro a b c
  cases a <;> cases b <;> cases c <;> intro hab hbc <;>
    first
    | rfl
    | exact Bool.noConfusion hab
    | exact Bool.noConfusion hbc
    | exact decide_eq_true (le_trans (of_decide_eq_true hab) (of_decide_eq_true hbc))
    | (rename_i x y z; revert hab hbc; cases x <;> cases y <;> cases z <;> decide)

theorem primLE_antisymm_prim : ∀ a b : JVal, isPrimB a = true → isPrimB b = true →
    primLE a b = true → primLE b a = true → a = b := by
  intro a b
  cases a <;> cases b <;> intro ha hb hab hba <;>
    first
    | exact Bool.noConfusion ha
    | exact Bool.noConfusion hb
    | exact Bool.noConfusion hab
    | exact Bool.noConfusion hba
    | exact congrArg JVal.str (le_antisymm (of_decide_eq_true hab) (of_decide_eq_true hba))
    | exact congrArg JVal.num (le_antisymm (of_decide_eq_true hab) (of_decide_eq_true hba))
    | (rename_i x y
       revert hab hba
       cases x <;> cases y <;> intro h1 h2 <;>
         first
         | rfl
         | exact Bool.noConfusion h1
         | exact Bool.noConfusion h2)

theorem keyLE_total : ∀ a b : String × JVal, (keyLE a b || keyLE b a) = true := by
  intro a b
  simp [keyLE]
  exact le_total _ _

theorem keyLE_trans : ∀ a b c : String × JVal, keyLE a b = true → keyLE b c = true →
    keyLE a c = true := by
  intro a b c
  simp [keyLE]
  exact fun h1 h2 => le_trans h1 h2

theorem all_of_perm {α : Type} {p : α → Bool} {xs ys : List α} (hperm : xs.Perm ys)
    (h : xs.all p = true) : ys.all p = true := by
  rw [List.all_eq_true] at h ⊢
  exact fun x hx => h x (hperm.symm.subset hx)

theorem canonFields_eq_map : ∀ fs, canonFields fs = (dropUndef fs).map (fun p => (p.1, canon p.2))
  | [] => rfl
  | (k, v) :: fs => by
    by_cases h : isUndef v = true
    · simp [canonFields, dropUndef, List.filter_cons, h, canonFields_eq_map fs]
    · simp [canonFields, dropUndef, List.filter_cons, h, canonFields_eq_map fs]

theorem canon_prim : ∀ {v : JVal}, isPrimB v = true → canon v = v := by
  intro v h
  cases v <;> first | rfl | simp [isPrimB] at h

theorem canonArr_eq_map : ∀ xs, canonArr xs = xs.map canon
  | [] => rfl
  | x :: xs => by simp [canonArr, canonArr_eq_map xs]

theorem canonArr_of_prims : ∀ {xs : List JVal}, xs.all isPrimB = true → canonArr xs = xs := by
  intro xs h
  induction xs with
  | nil => rfl
  | cons x xs ih =>
    rw [List.all_cons, Bool.and_eq_true] at h
    simp [canonArr, canon_prim h.1, ih h.2]

theorem wfFields_iff : ∀ fs : List (String × JVal),
    (wfFields fs = true ↔ ∀ p ∈ fs, wfJ p.2 = true)
  | [] => by simp [wfFields]
  | (k, v) :: fs => by
    rw [wfFields, Bool.and_eq_true, wfFields_iff fs]
    constructor
    · rintro ⟨h1, h2⟩ p hp
      rcases List.mem_cons.mp hp with rfl | hp'
      · exact h1
      · exact h2 p hp'
    · intro h
      exact ⟨h (k, v) (List.mem_cons_self _ _), fun p hp => h p (List.mem_cons_of_mem _ hp)⟩

theorem wfArr_iff : ∀ xs : List JVal, (wfArr xs = true ↔ ∀ x ∈ xs, wfJ x = true)
  | [] => by simp [wfArr]
  | x :: xs => by
    rw [wfArr, Bool.and_eq_true, wfArr_iff xs]
    constructor
    · rintro ⟨h1, h2⟩ y hy
      rcases List.mem_cons.mp hy with rfl | hy'
      · exact h1
      · exact h2 y hy'
    · intro h
      exact ⟨h x (List.mem_cons_self _ _), fun y hy => h y (List.mem_cons_of_mem _ hy)⟩

theorem wfFields_dropUndef {fs : List (String × JVal)} (h : wfFields fs = true) :
    wfFields (dropUndef fs) = true := by
  rw [wfFields_iff] at h ⊢
  exact fun p hp => h p ((List.filter_sublist fs).subset hp)

theorem wfFields_of_perm {ps qs : List (String × JVal)} (hperm : ps.Perm qs)
    (h : wfFields ps = true) : wfFields qs = true := by
  rw [wfFields_iff] at h ⊢
  exact fun p hp => h p (hperm.symm.subset hp)

/-- Canonicalization is invariant under the spec's normalization relation
(induction on the size of the value, with inversion of the derivation). -/
theorem canon_eq_sized : ∀ n : Nat, ∀ a b : JVal, sizeOf a ≤ n → JEquiv a b →
    wfJ a = true → wfJ b = true → canon a = canon b := by
  intro n
  induction n with
  | zero =>
    intro a b hsize _ _ _
    exfalso
    have hpos : 0 < sizeOf a := by cases a <;> simp
    omega
  | succ n ih =>
    intro a b hsize h hwa hwb
    cases h with
    | refl => rfl
    | arr hl =>
      rename_i xs ys
      have harr : ∀ xs' ys', JEquivList xs' ys' → (∀ x ∈ xs', sizeOf x ≤ n) →
          (∀ x ∈ xs', wfJ x = true) → (∀ y ∈ ys', wfJ y = true) →
          canonArr xs' = canonArr ys' := by
        intro xs'
        induction xs' with
        | nil =>
          intro ys' hl' _ _ _
          cases hl'
          rfl
        | cons x xs'' ihx =>
          intro ys' hl' hsz hw1 hw2
          cases hl' with
          | cons hx hrest =>
            rename_i y ys''
            simp only [canonArr]
            rw [ih x y (hsz x (List.mem_cons_self _ _)) hx
                (hw1 x (List.mem_cons_self _ _)) (hw2 y (List.mem_cons_self _ _)),
              ihx ys'' hrest (fun z hz => hsz z (List.mem_cons_of_mem _ hz))
                (fun z hz => hw1 z (List.mem_cons_of_mem _ hz))
                (fun z hz => hw2 z (List.mem_cons_of_mem _ hz))]
      have hsz : ∀ x ∈ xs, sizeOf x ≤ n := by
        intro x hx
        have h1 := List.sizeOf_lt_of_mem hx
        have h2 : sizeOf (JVal.arr xs) = 1 + sizeOf xs := by simp
        rw [h2] at hsize
        omega
      have hca : canonArr xs = canonArr ys := harr xs ys hl hsz
        (fun x hx => (wfArr_iff xs).mp (by simpa [wfJ] using hwa) x hx)
        (fun y hy => (wfArr_iff ys).mp (by simpa [wfJ] using hwb) y hy)
      simp only [canon]
      simp only [hca]
    | arrPerm hp hperm =>
      rename_i xs ys
      have hpy : ys.all isPrimB = true := all_of_perm hperm hp
      simp only [canon]
      simp only [canonArr_of_prims hp, canonArr_of_prims hpy, hp, hpy, if_true]
      congr 1
      have hp1 : (xs.mergeSort primLE).Perm (ys.mergeSort primLE) :=
        (List.mergeSort_perm xs primLE).trans (hperm.trans (List.mergeSort_perm ys primLE).symm)
      refine eq_of_perm_of_sorted_on hp1
        (List.sorted_mergeSort primLE_trans primLE_total xs)
        (List.sorted_mergeSort primLE_trans primLE_total ys)
        (fun u humem v hvmem huv hvu => ?_)
      have hu : u ∈ xs := (List.mergeSort_perm xs primLE).subset humem
      have hv : v ∈ xs := (List.mergeSort_perm xs primLE).subset hvmem
      exact primLE_antisymm_prim u v (List.all_eq_true.mp hp u hu)
        (List.all_eq_true.mp hp v hv) huv hvu
    | obj fs' h₁ h₂ =>
      rename_i fs gs
      rw [wfJ, Bool.and_eq_true] at hwa hwb
      have hn : (fs.map (fun p => p.1)).Nodup := by simpa using hwa.1
      have hfields : ∀ ps qs, JEquivFields ps qs → (∀ p ∈ ps, sizeOf p.2 ≤ n) →
          (∀ p ∈ ps, wfJ p.2 = true) → (∀ q ∈ qs, wfJ q.2 = true) →
          ps.map (fun p => (p.1, canon p.2)) = qs.map (fun p => (p.1, canon p.2)) := by
        intro ps
        induction ps with
        | nil =>
          intro qs hl _ _ _
          cases hl
          rfl
        | cons p ps' ihp =>
          intro qs hl hsz hw1 hw2
          cases hl with
          | cons k hv hrest =>
            rename_i v w qs''
            simp only [List.map_cons]
            rw [ih v w (hsz (k, v) (List.mem_cons_self _ _)) hv
                (hw1 (k, v) (List.mem_cons_self _ _)) (hw2 (k, w) (List.mem_cons_self _ _)),
              ihp qs'' hrest (fun z hz => hsz z (List.mem_cons_of_mem _ hz))
                (fun z hz => hw1 z (List.mem_cons_of_mem _ hz))
                (fun z hz => hw2 z (List.mem_cons_of_mem _ hz))]
      have hszf : ∀ p ∈ dropUndef fs, sizeOf p.2 ≤ n := by
        intro p hp
        have h0 : p ∈ fs := (List.filter_sublist fs).subset hp
        have h1 := List.sizeOf_lt_of_mem h0
        have h2 : sizeOf (JVal.obj fs) = 1 + sizeOf fs := by simp
        have h3 : sizeOf p.2 < sizeOf p := by
          obtain ⟨k, v⟩ := p
          have h4 : sizeOf ((k, v) : String × JVal) = 1 + sizeOf k + sizeOf v := by simp
          simp only [h4]
          omega
        rw [h2] at hsize
        omega
      have hwdf : ∀ p ∈ dropUndef fs, wfJ p.2 = true :=
        fun p hp => (wfFields_iff fs).mp hwa.2 p ((List.filter_sublist fs).subset hp)
      have hwfs' : ∀ q ∈ fs', wfJ q.2 = true := by
        intro q hq
        have hq' : q ∈ dropUndef gs := h₂.subset hq
        exact (wfFields_iff gs).mp hwb.2 q ((List.filter_sublist gs).subset hq')
      have hmap : (dropUndef fs).map (fun p => (p.1, canon p.2)) =
          fs'.map (fun p => (p.1, canon p.2)) :=
        hfields (dropUndef fs) fs' h₁ hszf hwdf hwfs'
      have hperm : (canonFields fs).Perm (canonFields gs) := by
        rw [canonFields_eq_map, canonFields_eq_map, hmap]
        exact h₂.map _
      simp only [canon]
      congr 1
      have hp1 : ((canonFields fs).mergeSort keyLE).Perm ((canonFields gs).mergeSort keyLE) :=
        (List.mergeSort_perm _ keyLE).trans (hperm.trans (List.mergeSort_perm _ keyLE).symm)
      refine eq_of_perm_of_sorted_on hp1
        (List.sorted_mergeSort keyLE_trans keyLE_total _)
        (List.sorted_mergeSort keyLE_trans keyLE_total _)
        (fun x hx y hy hxy hyx => ?_)
      have hx' : x ∈ canonFields fs := (List.mergeSort_perm _ keyLE).subset hx
      have hy' : y ∈ canonFields fs := (List.mergeSort_perm _ keyLE).subset hy
      have hkey : x.1 = y.1 := le_antisymm (of_decide_eq_true hxy) (of_decide_eq_true hyx)
      have hnodup : ((canonFields fs).map (fun p => p.1)).Nodup := by
        rw [canonFields_eq_map]
        have hmm : ((dropUndef fs).map (fun p => (p.1, canon p.2))).map (fun p => p.1) =
            (dropUndef fs).map (fun p => p.1) := by
          rw [List.map_map]
          rfl
        rw [hmm]
        exact List.Nodup.sublist ((List.filter_sublist fs).map _) hn
      exact List.inj_on_of_nodup_map hnodup hx' hy' hkey

theorem canon_eq {a b : JVal} (h : JEquiv a b) (hwa : wfJ a = true) (hwb : wfJ b = true) :
    canon a = canon b :=
  canon_eq_sized (sizeOf a) a b le_rfl h hwa hwb

/-- C5: the config hash is invariant under the spec's normalization —
reordering object keys, permuting elements of arrays of primitives, and
adding or removing undefined-valued fields — on well-formed (duplicate-free)
inputs. -/
theorem computeSandboxConfigHash_invariant (a b : JVal) (h : JEquiv a b)
    (hwa : wfJ a = true) (hwb : wfJ b = true) :
    computeSandboxConfigHash a = computeSandboxConfigHash b := by
  unfold computeSandboxConfigHash
  rw [canon_eq h hwa hwb]

/-- C5 witness: the spec's `capDrop` example — reordered keys, a permuted
primitive array, and a dropped undefined field leave the hash unchanged. -/
theorem computeSandboxConfigHash_invariant_witness :
    computeSandboxConfigHash
      (.obj [("capDrop", .arr [.str "ALL", .str "NET_RAW"]),
             ("image", .str "test:latest"), ("user", .undef)]) =
    computeSandboxConfigHash
      (.obj [("image", .str "test:latest"),
             ("capDrop", .arr [.str "NET_RAW", .str "ALL"])]) :=
  computeSandboxConfigHash_invariant _ _
    (JEquiv.obj [("capDrop", JVal.arr [JVal.str "NET_RAW", JVal.str "ALL"]),
        ("image", JVal.str "test:latest")]
      (JEquivFields.cons "capDrop"
        (JEquiv.arrPerm (by decide) (List.Perm.swap (JVal.str "NET_RAW") (JVal.str "ALL") []))
        (JEquivFields.cons "image" (JEquiv.refl _) JEquivFields.nil))
      (List.Perm.swap ("image", JVal.str "test:latest")
        ("capDrop", JVal.arr [JVal.str "NET_RAW", JVal.str "ALL"]) []))
    (by decide) (by decide)

end Wopr

